import Mathlib

/-!
Verification of the portage-atom-resolvo dependency provider.

This file gives a shallow embedding, in Lean 4, of the core of the
repository: the PMS version-match predicate of src/version_match.rs, the
interning pool of src/pool.rs, and the solver adapter, dependency
compiler fragment, post-solve graph and install-order routines of
src/provider.rs.  Rust HashMap fields are modelled as association lists
looked up by first match; Rust Vec indices become list indices over Nat
ids; Rust panics on out-of-range indices are modelled with getD and a
default value, which no theorem below exercises out of range.
Definitions keep the snake case names of the source where possible; the
Rust field named from is rendered as src because from is a Lean keyword.

Types owned by the external portage-atom and resolvo collaborator crates
(Version ordering, Cpv ordering) are not part of this repository; where
their behaviour matters they are modelled from the specification and
marked as such in their doc comments.
-/

namespace PortageResolvo

/-- PMS comparison operator of a dependency atom (portage-atom Operator). -/
inductive Operator where
  | less
  | lessOrEqual
  | equal
  | greaterOrEqual
  | greater
  | approximate
  | equalGlob
deriving DecidableEq, Repr

/-- Kind of a PMS version suffix. Modelled from the spec: the ordered list
of suffixes is compared with the order alpha, beta, pre, rc, none, p. -/
inductive SuffixKind where
  | alpha
  | beta
  | pre
  | rc
  | p
deriving DecidableEq, Repr

/-- One PMS version suffix with its numeric part. -/
structure Suffix where
  kind : SuffixKind
  num : Nat
deriving DecidableEq, Repr

/-- Parsed package version (portage-atom Version).  The fields mirror the
ones the source reads: numbers is the list of dotted numeric components
kept as strings, letter the optional trailing letter, suffixes the
ordered suffix list, revision the -rN part with 0 for absent, op a
version operator carried by the parse, and glob the trailing star
marker. -/
structure Version where
  op : Option Operator
  numbers : List String
  letter : Option Char
  suffixes : List Suffix
  revision : Nat
  glob : Bool
deriving DecidableEq, Repr

instance : Inhabited Version :=
  ⟨{ op := none, numbers := [], letter := none, suffixes := [], revision := 0, glob := false }⟩

/-- Rank of a suffix kind in the PMS order; 4 is the rank of the absent
suffix. Modelled from the spec ordering alpha, beta, pre, rc, none, p. -/
def suffixKindRank : SuffixKind → Nat
  | .alpha => 0
  | .beta => 1
  | .pre => 2
  | .rc => 3
  | .p => 5

/-- Whether a numeric component string begins with the digit zero. -/
def leadingZero (a : String) : Bool :=
  match a.data with
  | [] => false
  | c :: _ => c == '0'

/-- Numeric value of a component string of decimal digits. -/
def componentToNat (a : String) : Nat :=
  a.data.foldl (fun acc c => acc * 10 + (c.toNat - 48)) 0

/-- Compare one dotted numeric component. Modelled from the spec:
component-wise numeric compare of the dotted numbers, with leading-zero
string compare where either side begins with 0. -/
def compareComponent (a b : String) : Ordering :=
  if leadingZero a || leadingZero b then compare a b
  else compare (componentToNat a) (componentToNat b)

/-- Compare the dotted numeric component lists. Modelled from the spec;
a strict prefix compares below the longer version. -/
def compareNumbers : List String → List String → Ordering
  | [], [] => .eq
  | [], _ :: _ => .lt
  | _ :: _, [] => .gt
  | a :: as, b :: bs =>
    match compareComponent a b with
    | .eq => compareNumbers as bs
    | o => o

/-- Compare the optional trailing letters; an absent letter sorts first.
Modelled from the spec. -/
def compareLetter : Option Char → Option Char → Ordering
  | none, none => .eq
  | none, some _ => .lt
  | some _, none => .gt
  | some a, some b => compare a b

/-- Compare two suffix lists. Modelled from the spec: element-wise on the
suffix order alpha, beta, pre, rc, none, p, with the exhausted side
standing for the absent suffix of rank 4. -/
def compareSuffixes : List Suffix → List Suffix → Ordering
  | [], [] => .eq
  | [], s :: _ => if suffixKindRank s.kind < 4 then .gt else .lt
  | s :: _, [] => if suffixKindRank s.kind < 4 then .lt else .gt
  | a :: as, b :: bs =>
    match compare (suffixKindRank a.kind) (suffixKindRank b.kind) with
    | .eq =>
      match compare a.num b.num with
      | .eq => compareSuffixes as bs
      | o => o
    | o => o

/-- PMS total order on versions. Modelled from the spec: numeric
components, then optional trailing letter, then suffix list, then
revision. -/
def pmsCompare (a b : Version) : Ordering :=
  ((compareNumbers a.numbers b.numbers).then
      (compareLetter a.letter b.letter)).then
    ((compareSuffixes a.suffixes b.suffixes).then
      (compare a.revision b.revision))

/-- Base version used by the tilde operator. Modelled from the spec: a
tilde match keeps the same base version and ignores the revision. -/
def Version.base (v : Version) : Version := { v with revision := 0 }

/-- Glob matching for the =* operator, from glob_matches in
src/version_match.rs: the constraint numeric components must be a prefix
of the candidate components, and when the constraint carries a letter
the candidate letter must equal it. -/
def glob_matches (candidate constraint : Version) : Bool :=
  -- The constraint numeric components must be a prefix of the candidate ones.
  if candidate.numbers.length < constraint.numbers.length then
    false
  else if !((candidate.numbers.zip constraint.numbers).all fun cp => cp.1 == cp.2) then
    false
  else
    -- If constraint specifies a letter, candidate must match it.
    match constraint.letter with
    | some cl =>
      match candidate.letter with
      | some l => l == cl
      | none => false
    | none => true

/-- Version match predicate, from version_matches in
src/version_match.rs.  The ordered operators go through the modelled PMS
total order pmsCompare. -/
def version_matches (candidate : Version) (op : Operator) (constraint : Version) : Bool :=
  match op with
  | .less => pmsCompare candidate constraint == .lt
  | .lessOrEqual => pmsCompare candidate constraint != .gt
  | .equal => candidate == constraint
  | .greaterOrEqual => pmsCompare candidate constraint != .lt
  | .greater => pmsCompare candidate constraint == .gt
  | .approximate => candidate.base == constraint.base
  | .equalGlob => glob_matches candidate constraint

section GlobCharacterisation

/-- The length-and-zip test performed by glob_matches is exactly the
statement that b is a prefix of a. -/
theorem zip_all_eq_iff_append (a b : List String) :
    (b.length ≤ a.length ∧ ((a.zip b).all fun cp => cp.1 == cp.2) = true) ↔
      ∃ t, a = b ++ t := by
  induction b generalizing a with
  | nil =>
    simp
  | cons x xs ih =>
    cases a with
    | nil =>
      constructor
      · rintro ⟨h, -⟩
        simp at h
      · rintro ⟨t, ht⟩
        simp at ht
    | cons y ys =>
      constructor
      · rintro ⟨hlen, hall⟩
        simp only [List.zip_cons_cons, List.all_cons, Bool.and_eq_true, beq_iff_eq] at hall
        obtain ⟨rfl, hall⟩ := hall
        have := (ih ys).mp ⟨by simpa using hlen, hall⟩
        obtain ⟨t, rfl⟩ := this
        exact ⟨t, rfl⟩
      · rintro ⟨t, ht⟩
        simp only [List.cons_append] at ht
        injection ht with h1 h2
        subst h1
        subst h2
        refine ⟨by simp, ?_⟩
        simp only [List.zip_cons_cons, List.all_cons, Bool.and_eq_true, beq_iff_eq]
        exact ⟨by simp, ((ih (xs ++ t)).mpr ⟨t, rfl⟩).2⟩

/-- C6. For every candidate and constraint version, version_matches with
the =* operator returns true if and only if the constraint numeric
components are a prefix of the candidate ones and, when the constraint
carries a trailing letter, the candidate letter exists and equals it;
with no constraint letter any candidate letter, or none, is accepted. -/
theorem c6_glob_numeric_prefix_and_letter (candidate constraint : Version) :
    version_matches candidate Operator.equalGlob constraint = true ↔
      ((∃ t, candidate.numbers = constraint.numbers ++ t) ∧
        match constraint.letter with
        | some cl => candidate.letter = some cl
        | none => True) := by
  unfold version_matches glob_matches
  constructor
  · intro h
    split_ifs at h with h1 h2
    · refine ⟨(zip_all_eq_iff_append _ _).mp ⟨by omega, ?_⟩, ?_⟩
      · simpa using h2
      · cases hk : constraint.letter with
        | none => trivial
        | some cl =>
          cases hc : candidate.letter with
          | none => simp [hk, hc] at h
          | some l => simp [hk, hc] at h; simp [h]
  · rintro ⟨⟨t, ht⟩, hletter⟩
    have hz := (zip_all_eq_iff_append candidate.numbers constraint.numbers).mpr ⟨t, ht⟩
    rw [if_neg (by omega), if_neg (by simp [hz.2])]
    cases hk : constraint.letter with
    | none => simp
    | some cl =>
      rw [hk] at hletter
      simp [hletter]

end GlobCharacterisation

/-! ## Data model (src/pool.rs and portage-atom input types) -/

/-- Unversioned category/package name (portage-atom Cpn). -/
structure Cpn where
  category : String
  name : String
deriving DecidableEq, Repr

/-- Category/package name with version (portage-atom Cpv). -/
structure Cpv where
  cpn : Cpn
  version : Version
deriving DecidableEq, Repr

/-- Weak or strong blocker marker (portage-atom Blocker). -/
inductive Blocker where
  | weak
  | strong
deriving DecidableEq, Repr

/-- Slot operator of a slot dependency (portage-atom SlotOperator). -/
inductive SlotOperator where
  | star
  | equal
deriving DecidableEq, Repr

/-- Named slot part of a slot dependency, with optional sub-slot. -/
structure NamedSlot where
  slot : String
  subslot : Option String
deriving DecidableEq, Repr

/-- Slot dependency of an atom (portage-atom SlotDep): either a named
slot with an optional operator, or a bare operator. -/
inductive SlotDep where
  | slotDep (slot : Option NamedSlot) (op : Option SlotOperator)
  | operator (op : SlotOperator)
deriving DecidableEq, Repr

/-- Kind of a USE dependency bracket entry (portage-atom UseDepKind). -/
inductive UseDepKind where
  | enabled
  | disabled
  | conditional
  | conditionalInverse
  | equalKind
  | equalInverse
deriving DecidableEq, Repr

/-- One USE dependency bracket entry. -/
structure UseDep where
  flag : String
  kind : UseDepKind
deriving DecidableEq, Repr

/-- Parsed dependency atom (portage-atom Dep), carrying the fields the
provider reads. -/
structure Dep where
  cpn : Cpn
  version : Option Version
  slot_dep : Option SlotDep
  repo : Option String
  use_deps : Option (List UseDep)
  blocker : Option Blocker
deriving DecidableEq, Repr

/-- Nested dependency tree (portage-atom DepEntry). -/
inductive DepEntry where
  | atom (dep : Dep)
  | anyOf (children : List DepEntry)
  | exactlyOneOf (children : List DepEntry)
  | atMostOneOf (children : List DepEntry)
  | useConditional (flag : String) (negate : Bool) (children : List DepEntry)

/-- PMS dependency class, from src/pool.rs. -/
inductive DepClass where
  | depend
  | rdepend
  | bdepend
  | pdepend
  | idepend
deriving DecidableEq, Repr

/-- Dependency trees separated by PMS dependency class, from src/pool.rs. -/
structure PackageDeps where
  depend : List DepEntry
  rdepend : List DepEntry
  bdepend : List DepEntry
  pdepend : List DepEntry
  idepend : List DepEntry

instance : Inhabited PackageDeps := ⟨⟨[], [], [], [], []⟩⟩

/-- Iterate over all dependency classes and their entries, from
PackageDeps.iter_classes in src/pool.rs (empty classes are skipped). -/
def PackageDeps.iter_classes (d : PackageDeps) : List (DepClass × List DepEntry) :=
  [(DepClass.depend, d.depend), (DepClass.rdepend, d.rdepend),
   (DepClass.bdepend, d.bdepend), (DepClass.pdepend, d.pdepend),
   (DepClass.idepend, d.idepend)].filter fun ce => !ce.2.isEmpty

/-- Package name used as the resolvo name axis, from src/pool.rs: the
slot is encoded into the name. -/
structure PackageName where
  cpn : Cpn
  slot : Option String
deriving DecidableEq, Repr

/-- Metadata for one concrete installable version, from src/pool.rs.
The Rust HashSet of active USE flags becomes a list queried by
membership. -/
structure PackageMetadata where
  cpv : Cpv
  slot : Option String
  subslot : Option String
  iuse : List String
  use_flags : List String
  repo : Option String
  dependencies : PackageDeps

instance : Inhabited PackageMetadata :=
  ⟨{ cpv := ⟨⟨"", ""⟩, default⟩, slot := none, subslot := none, iuse := [],
     use_flags := [], repo := none, dependencies := default }⟩

/-- Version constraint a version-set id resolves to, from src/pool.rs. -/
structure VersionConstraint where
  cpn : Cpn
  operator : Operator
  version : Version
  slot : Option String
  subslot : Option String
  repo : Option String
  use_constraints : List (String × Bool)
  inverted : Bool
deriving DecidableEq, Repr

instance : Inhabited VersionConstraint :=
  ⟨{ cpn := ⟨"", ""⟩, operator := Operator.equal, version := default, slot := none,
     subslot := none, repo := none, use_constraints := [], inverted := false }⟩

/-- Configuration for USE flag evaluation, from src/pool.rs.  The three
Rust HashSet fields become lists queried by membership. -/
structure UseConfig where
  enabled : List String
  disabled : List String
  solver_decided : List String
deriving Repr

/-- Resolvo condition value; the source only ever wraps a version set. -/
inductive RCondition where
  | requirement (vs : Nat)
deriving DecidableEq, Repr

/-- Resolvo requirement: a single version set or a union id. -/
inductive Requirement where
  | single (vs : Nat)
  | union (u : Nat)
deriving DecidableEq, Repr

/-- Resolvo conditional requirement. -/
structure ConditionalRequirement where
  condition : Option Nat
  requirement : Requirement
deriving DecidableEq, Repr

/-- Resolvo per-solvable dependency record. -/
structure KnownDependencies where
  requirements : List ConditionalRequirement
  constrains : List Nat
deriving DecidableEq, Repr

/-! ## Interning pool (src/pool.rs) -/

/-- First-match lookup in an association list; models HashMap get for
the reverse maps, whose keys are unique because insertion is guarded. -/
def assocFind {α β : Type} [DecidableEq α] : List (α × β) → α → Option β
  | [], _ => none
  | kv :: rest, key => if kv.1 = key then some kv.2 else assocFind rest key

/-- Arena-based storage for all resolvo-interned objects, from
PortagePool in src/pool.rs.  Ids are list indices; the rev fields model
the reverse-lookup HashMaps. -/
structure PortagePool where
  names : List PackageName
  names_rev : List (PackageName × Nat)
  solvables : List PackageMetadata
  solvable_names : List Nat
  version_sets : List VersionConstraint
  version_set_names : List Nat
  version_sets_rev : List (VersionConstraint × Nat)
  version_set_unions : List (List Nat)
  conditions : List RCondition
  strings : List String

/-- The empty pool, from PortagePool::new. -/
def PortagePool.empty : PortagePool :=
  { names := [], names_rev := [], solvables := [], solvable_names := [],
    version_sets := [], version_set_names := [], version_sets_rev := [],
    version_set_unions := [], conditions := [], strings := [] }

/-- Intern a package name, returning the existing id if already
interned, from PortagePool::intern_name. -/
def PortagePool.intern_name (p : PortagePool) (name : PackageName) : Nat × PortagePool :=
  match assocFind p.names_rev name with
  | some id => (id, p)
  | none =>
    let id := p.names.length
    (id, { p with names_rev := (name, id) :: p.names_rev, names := p.names ++ [name] })

/-- Look up the package name for a name id, from resolve_name (a Rust
index that panics out of range; never exercised out of range here). -/
def PortagePool.resolve_name (p : PortagePool) (id : Nat) : PackageName :=
  p.names.getD id ⟨⟨"", ""⟩, none⟩

/-- Add a solvable to the pool, from PortagePool::intern_solvable
(append-only, no dedup). -/
def PortagePool.intern_solvable (p : PortagePool) (name_id : Nat) (meta : PackageMetadata) :
    Nat × PortagePool :=
  let id := p.solvables.length
  (id, { p with solvables := p.solvables ++ [meta],
                solvable_names := p.solvable_names ++ [name_id] })

/-- Look up the metadata for a solvable id, from resolve_solvable. -/
def PortagePool.resolve_solvable (p : PortagePool) (id : Nat) : PackageMetadata :=
  p.solvables.getD id default

/-- Look up the name id of a solvable, from solvable_name. -/
def PortagePool.solvable_name (p : PortagePool) (id : Nat) : Nat :=
  p.solvable_names.getD id 0

/-- Intern a version constraint, deduplicating by value, from
PortagePool::intern_version_set.  When the constraint value is already
present the stored id is returned and the name id argument is unused. -/
def PortagePool.intern_version_set (p : PortagePool) (name_id : Nat)
    (constraint : VersionConstraint) : Nat × PortagePool :=
  match assocFind p.version_sets_rev constraint with
  | some id => (id, p)
  | none =>
    let id := p.version_sets.length
    (id, { p with version_sets_rev := (constraint, id) :: p.version_sets_rev,
                  version_sets := p.version_sets ++ [constraint],
                  version_set_names := p.version_set_names ++ [name_id] })

/-- Look up the constraint for a version-set id, from resolve_version_set. -/
def PortagePool.resolve_version_set (p : PortagePool) (id : Nat) : VersionConstraint :=
  p.version_sets.getD id default

/-- Look up the name id for a version-set id, from version_set_name. -/
def PortagePool.version_set_name (p : PortagePool) (id : Nat) : Nat :=
  p.version_set_names.getD id 0

/-- Intern a union of version sets, from intern_version_set_union
(append-only). -/
def PortagePool.intern_version_set_union (p : PortagePool) (sets : List Nat) :
    Nat × PortagePool :=
  let id := p.version_set_unions.length
  (id, { p with version_set_unions := p.version_set_unions ++ [sets] })

/-- Look up the version sets in a union, from resolve_version_set_union. -/
def PortagePool.resolve_version_set_union (p : PortagePool) (id : Nat) : List Nat :=
  p.version_set_unions.getD id []

/-- Intern a condition, from intern_condition (append-only). -/
def PortagePool.intern_condition (p : PortagePool) (c : RCondition) : Nat × PortagePool :=
  let id := p.conditions.length
  (id, { p with conditions := p.conditions ++ [c] })

/-! ## C8 and C9: interning idempotence -/

/-- C8. Interning is idempotent: a second intern_name call with an equal
package name returns the same name id, and a second intern_version_set
call with a structurally equal constraint returns the same version-set
id; in both cases the second call leaves the pool, hence every arena,
unchanged. -/
theorem c8_interning_idempotent (p : PortagePool) (n : PackageName)
    (nid nid2 : Nat) (c : VersionConstraint) :
    (PortagePool.intern_name (PortagePool.intern_name p n).2 n =
      PortagePool.intern_name p n) ∧
    (PortagePool.intern_version_set (PortagePool.intern_version_set p nid c).2 nid2 c =
      PortagePool.intern_version_set p nid c) := by
  constructor
  · unfold PortagePool.intern_name
    cases h : assocFind p.names_rev n with
    | some id => simp [h]
    | none => simp [h, assocFind]
  · unfold PortagePool.intern_version_set
    cases h : assocFind p.version_sets_rev c with
    | some id => simp [h]
    | none => simp [h, assocFind]

/-- C9. When intern_version_set is called with a constraint equal to one
already interned but with a different name id, it returns the previously
allocated id, discards the new name id, and version_set_name still
resolves to the name id supplied by the first interning call.  The
hypotheses say that the constraint is new to the pool and that the
version-set arenas are aligned, as they are for every pool the provider
builds. -/
theorem c9_intern_version_set_keeps_first_name (p : PortagePool)
    (nid1 nid2 : Nat) (c : VersionConstraint)
    (hnew : assocFind p.version_sets_rev c = none)
    (hlen : p.version_set_names.length = p.version_sets.length) :
    (PortagePool.intern_version_set (PortagePool.intern_version_set p nid1 c).2 nid2 c).1 =
      (PortagePool.intern_version_set p nid1 c).1 ∧
    (PortagePool.intern_version_set (PortagePool.intern_version_set p nid1 c).2 nid2 c).2 =
      (PortagePool.intern_version_set p nid1 c).2 ∧
    PortagePool.version_set_name (PortagePool.intern_version_set p nid1 c).2
      (PortagePool.intern_version_set p nid1 c).1 = nid1 := by
  refine ⟨?_, ?_, ?_⟩
  · unfold PortagePool.intern_version_set
    simp [hnew, assocFind]
  · unfold PortagePool.intern_version_set
    simp [hnew, assocFind]
  · unfold PortagePool.intern_version_set PortagePool.version_set_name
    simp [hnew, List.getD_eq_getElem?_getD, hlen]

/-- Witness for C9 at a concrete input: the empty pool, name ids 3 and
7, and a simple constraint. -/
theorem c9_witness :
    (assocFind PortagePool.empty.version_sets_rev default = none) ∧
    PortagePool.version_set_name
      (PortagePool.intern_version_set PortagePool.empty 3 default).2
      (PortagePool.intern_version_set PortagePool.empty 3 default).1 = 3 :=
  ⟨by decide,
    (c9_intern_version_set_keeps_first_name PortagePool.empty 3 7 default
      (by decide) (by decide)).2.2⟩

/-! ## Helper functions of src/provider.rs -/

/-- Extract the slot and sub-slot from the slot dependency of an atom,
from extract_slot in src/provider.rs: star and bare equal mean any
slot. -/
def extract_slot (dep : Dep) : Option String × Option String :=
  match dep.slot_dep with
  | some (SlotDep.slotDep (some s) _) => (some s.slot, s.subslot)
  | some (SlotDep.operator SlotOperator.star) => (none, none)
  | some (SlotDep.operator SlotOperator.equal) => (none, none)
  | _ => (none, none)

/-- Whether a dep carries an equal slot operator (rebuild trigger), from
has_slot_equal_op in src/provider.rs. -/
def has_slot_equal_op (dep : Dep) : Bool :=
  match dep.slot_dep with
  | some (SlotDep.operator SlotOperator.equal) => true
  | some (SlotDep.slotDep _ (some SlotOperator.equal)) => true
  | _ => false

/-- Strip the operator from a version, from bare_version in
src/provider.rs. -/
def bare_version (v : Version) : Version :=
  { op := none, numbers := v.numbers, letter := v.letter,
    suffixes := v.suffixes, revision := v.revision, glob := v.glob }

/-- Extract operator and bare version from a dep, defaulting to at least
version zero for unversioned atoms, from dep_op_version in
src/provider.rs. -/
def dep_op_version (dep : Dep) : Operator × Version :=
  match dep.version with
  | some v => (v.op.getD Operator.equal, bare_version v)
  | none =>
    (Operator.greaterOrEqual,
      { op := none, numbers := ["0"], letter := none, suffixes := [],
        revision := 0, glob := false })

/-- Resolve USE dep bracket entries of an atom into flag/state pairs,
from resolve_use_deps in src/provider.rs: conditional variants are
resolved eagerly against the enabled set of the USE config, and the
result is sorted by flag name. -/
def resolve_use_deps (dep : Dep) (use_config : UseConfig) : List (String × Bool) :=
  match dep.use_deps with
  | none => []
  | some use_deps =>
    let constraints := use_deps.foldl
      (fun acc ud =>
        let parent_flag_on := use_config.enabled.contains ud.flag
        match ud.kind with
        | UseDepKind.enabled => acc ++ [(ud.flag, true)]
        | UseDepKind.disabled => acc ++ [(ud.flag, false)]
        | UseDepKind.conditional =>
          if parent_flag_on then acc ++ [(ud.flag, true)] else acc
        | UseDepKind.conditionalInverse =>
          if !parent_flag_on then acc ++ [(ud.flag, true)] else acc
        | UseDepKind.equalKind => acc ++ [(ud.flag, parent_flag_on)]
        | UseDepKind.equalInverse => acc ++ [(ud.flag, !parent_flag_on)]) []
    constraints.insertionSort fun a b => a.1 ≤ b.1

/-- Slot, sub-slot, repository and USE constraint check of a candidate
against a version constraint, from slot_matches in src/provider.rs. -/
def slot_matches (meta : PackageMetadata) (constraint : VersionConstraint) : Bool :=
  (match constraint.slot with
   | some required_slot => meta.slot == some required_slot
   | none => true) &&
  (match constraint.subslot with
   | some required_subslot => meta.subslot == some required_subslot
   | none => true) &&
  (match constraint.repo with
   | some required_repo => meta.repo == some required_repo
   | none => true) &&
  constraint.use_constraints.all fun fc => meta.use_flags.contains fc.1 == fc.2

/-- Candidate filter of the solver adapter, from filter_candidates in
src/provider.rs: the match result of the version and slot predicates is
flipped by the inverted bit of the constraint and then by the inverse
argument of the call. -/
def filter_candidates (pool : PortagePool) (candidates : List Nat)
    (version_set : Nat) (inverse : Bool) : List Nat :=
  let constraint := pool.resolve_version_set version_set
  candidates.filter fun sid =>
    let meta := pool.resolve_solvable sid
    let m := version_matches meta.cpv.version constraint.operator constraint.version &&
      slot_matches meta constraint
    let m := if constraint.inverted then !m else m
    if inverse then !m else m

/-! ## C2: filter_candidates is an XOR-shaped subsequence filter -/

/-- C2. filter_candidates returns exactly the subsequence of its input,
order preserved, selected by the predicate version_matches AND
slot_matches, XOR the inverted bit of the constraint, XOR the inverse
argument; in particular a blocker constraint, which is stored inverted,
queried with inverse set returns exactly the candidates that match the
blocker operator. -/
theorem c2_filter_candidates_xor (pool : PortagePool) (candidates : List Nat)
    (version_set : Nat) (inverse : Bool) :
    (filter_candidates pool candidates version_set inverse =
      candidates.filter fun sid =>
        xor
          (xor
            (version_matches (pool.resolve_solvable sid).cpv.version
                (pool.resolve_version_set version_set).operator
                (pool.resolve_version_set version_set).version &&
              slot_matches (pool.resolve_solvable sid)
                (pool.resolve_version_set version_set))
            (pool.resolve_version_set version_set).inverted)
          inverse) ∧
    (filter_candidates pool candidates version_set inverse).Sublist candidates ∧
    ((pool.resolve_version_set version_set).inverted = true →
      filter_candidates pool candidates version_set true =
        candidates.filter fun sid =>
          version_matches (pool.resolve_solvable sid).cpv.version
              (pool.resolve_version_set version_set).operator
              (pool.resolve_version_set version_set).version &&
            slot_matches (pool.resolve_solvable sid)
              (pool.resolve_version_set version_set)) := by
  refine ⟨?_, ?_, ?_⟩
  · unfold filter_candidates
    refine List.filter_congr fun sid _ => ?_
    cases hm : version_matches (pool.resolve_solvable sid).cpv.version
        (pool.resolve_version_set version_set).operator
        (pool.resolve_version_set version_set).version &&
      slot_matches (pool.resolve_solvable sid) (pool.resolve_version_set version_set) <;>
      cases hi : (pool.resolve_version_set version_set).inverted <;>
      cases inverse <;> simp [hm, hi]
  · exact List.filter_sublist _
  · intro hinv
    unfold filter_candidates
    refine List.filter_congr fun sid _ => ?_
    cases hm : version_matches (pool.resolve_solvable sid).cpv.version
        (pool.resolve_version_set version_set).operator
        (pool.resolve_version_set version_set).version &&
      slot_matches (pool.resolve_solvable sid) (pool.resolve_version_set version_set) <;>
      simp [hm, hinv]

/-- Witness for C2: the blocker clause of the theorem applied at a
concrete pool holding one solvable and one inverted constraint. -/
theorem c2_witness :
    filter_candidates
      { PortagePool.empty with
          solvables := [default],
          version_sets := [{ (default : VersionConstraint) with
            operator := Operator.greaterOrEqual, inverted := true }] }
      [0] 0 true =
    List.filter
      (fun sid =>
        version_matches (PortagePool.resolve_solvable
            { PortagePool.empty with
                solvables := [default],
                version_sets := [{ (default : VersionConstraint) with
                  operator := Operator.greaterOrEqual, inverted := true }] } sid).cpv.version
            Operator.greaterOrEqual (default : Version) &&
          slot_matches (PortagePool.resolve_solvable
            { PortagePool.empty with
                solvables := [default],
                version_sets := [{ (default : VersionConstraint) with
                  operator := Operator.greaterOrEqual, inverted := true }] } sid)
            { (default : VersionConstraint) with
                operator := Operator.greaterOrEqual, inverted := true })
      [0] :=
  (c2_filter_candidates_xor
    { PortagePool.empty with
        solvables := [default],
        version_sets := [{ (default : VersionConstraint) with
          operator := Operator.greaterOrEqual, inverted := true }] }
    [0] 0 true).2.2 (by decide)

/-! ## C7: slot 0 and absent slot are not canonicalised -/

/-- Well-formedness of the name reverse map: every entry points at the
matching index of the names arena.  This holds for every pool the
provider builds, since intern_name is the only writer. -/
def NamesRevWF (p : PortagePool) : Prop :=
  ∀ kv ∈ p.names_rev, kv.2 < p.names.length ∧
    p.names.getD kv.2 ⟨⟨"", ""⟩, none⟩ = kv.1

/-- intern_name preserves the reverse-map well-formedness. -/
theorem intern_name_wf (p : PortagePool) (n : PackageName) (hwf : NamesRevWF p) :
    NamesRevWF (PortagePool.intern_name p n).2 := by
  unfold PortagePool.intern_name
  cases h : assocFind p.names_rev n with
  | some id => exact hwf
  | none =>
    intro kv hkv
    simp only [List.mem_cons] at hkv
    rcases hkv with rfl | hkv
    · refine ⟨by simp, ?_⟩
      simp [List.getD_eq_getElem?_getD]
    · have := hwf kv hkv
      refine ⟨by simp; omega, ?_⟩
      rw [List.getD_append _ _ _ _ this.1]
      exact this.2

/-- A successful association-list lookup witnesses membership. -/
theorem assocFind_mem {α β : Type} [DecidableEq α] {l : List (α × β)} {k : α} {v : β}
    (h : assocFind l k = some v) : (k, v) ∈ l := by
  induction l with
  | nil => simp [assocFind] at h
  | cons kv rest ih =>
    by_cases hk : kv.1 = k
    · rw [assocFind, if_pos hk] at h
      injection h with h2
      have : kv = (k, v) := by
        cases kv
        simp_all
      rw [this]
      exact List.mem_cons_self _ _
    · rw [assocFind, if_neg hk] at h
      exact List.mem_cons_of_mem _ (ih h)

/-- After intern_name, the returned id resolves to the interned name. -/
theorem intern_name_getD (p : PortagePool) (n : PackageName) (hwf : NamesRevWF p) :
    (PortagePool.intern_name p n).2.names.getD (PortagePool.intern_name p n).1
        ⟨⟨"", ""⟩, none⟩ = n ∧
      (PortagePool.intern_name p n).1 < (PortagePool.intern_name p n).2.names.length := by
  unfold PortagePool.intern_name
  cases h : assocFind p.names_rev n with
  | some id =>
    have := hwf _ (assocFind_mem h)
    exact ⟨this.2, this.1⟩
  | none =>
    refine ⟨?_, by simp⟩
    simp [List.getD_eq_getElem?_getD]

/-- intern_name only appends to the names arena, so existing indices
keep resolving to the same name. -/
theorem intern_name_getD_mono (p : PortagePool) (n : PackageName) (i : Nat)
    (hi : i < p.names.length) :
    (PortagePool.intern_name p n).2.names.getD i ⟨⟨"", ""⟩, none⟩ =
      p.names.getD i ⟨⟨"", ""⟩, none⟩ := by
  unfold PortagePool.intern_name
  cases h : assocFind p.names_rev n with
  | some id => rfl
  | none =>
    simp only
    rw [List.getD_append _ _ _ _ hi]

/-- C7 counterexample. The claim fails on the code: in the empty pool,
interning the package name with slot 0 and then the same CPN with an
absent slot yields two distinct name ids, and slot_matches rejects a
candidate with an absent slot against a constraint requiring slot 0, so
slot 0 and absent slot are not treated as the same default. -/
theorem c7_counterexample :
    ((PortagePool.intern_name PortagePool.empty ⟨⟨"dev-lang", "python"⟩, some "0"⟩).1 ≠
      (PortagePool.intern_name
        (PortagePool.intern_name PortagePool.empty ⟨⟨"dev-lang", "python"⟩, some "0"⟩).2
        ⟨⟨"dev-lang", "python"⟩, none⟩).1) ∧
    slot_matches (default : PackageMetadata)
      { (default : VersionConstraint) with slot := some "0" } = false := by
  constructor
  · decide
  · decide

/-- C7 amended. No canonicalisation is applied to slot 0 versus an
absent slot: on the name axis, interning a package name with slot 0 and
then the same CPN with an absent slot always yields two distinct name
ids (in any pool with a well-formed reverse map), and in slot_matches a
candidate with an absent slot is rejected by every constraint that
requires a slot; the same literal comparison is used on both sides of
every comparison, so the treatment is uniform but slot 0 and absent are
distinct. -/
theorem c7_amended_no_canonicalisation (p : PortagePool) (c : Cpn)
    (hwf : NamesRevWF p) (meta : PackageMetadata) (k : VersionConstraint)
    (s : String) (hm : meta.slot = none) (hk : k.slot = some s) :
    ((PortagePool.intern_name p ⟨c, some "0"⟩).1 ≠
      (PortagePool.intern_name
        (PortagePool.intern_name p ⟨c, some "0"⟩).2 ⟨c, none⟩).1) ∧
    slot_matches meta k = false := by
  constructor
  · have h1 := intern_name_getD p ⟨c, some "0"⟩ hwf
    have hwf1 : NamesRevWF (PortagePool.intern_name p ⟨c, some "0"⟩).2 :=
      intern_name_wf p _ hwf
    have h2 := intern_name_getD (PortagePool.intern_name p ⟨c, some "0"⟩).2 ⟨c, none⟩ hwf1
    intro heq
    -- the two ids resolve to different names inside the second pool
    have hmono := intern_name_getD_mono (PortagePool.intern_name p ⟨c, some "0"⟩).2
      ⟨c, none⟩ (PortagePool.intern_name p ⟨c, some "0"⟩).1 h1.2
    rw [h1.1, heq, h2.1] at hmono
    simp at hmono
  · unfold slot_matches
    rw [hk, hm]
    simp

/-- Witness for C7 amended, applying the theorem at the empty pool and a
concrete candidate and constraint. -/
theorem c7_amended_witness :
    (PortagePool.intern_name PortagePool.empty ⟨⟨"a", "b"⟩, some "0"⟩).1 ≠
      (PortagePool.intern_name
        (PortagePool.intern_name PortagePool.empty ⟨⟨"a", "b"⟩, some "0"⟩).2
        ⟨⟨"a", "b"⟩, none⟩).1 :=
  (c7_amended_no_canonicalisation PortagePool.empty ⟨"a", "b"⟩
    (by intro kv hkv; simp [PortagePool.empty] at hkv)
    (default : PackageMetadata)
    { (default : VersionConstraint) with slot := some "0" } "0"
    (by decide) (by decide)).1

/-! ## C10: adapter totality on unknown ids -/

/-- Resolvo hint about dependency availability; the source always
answers All. -/
inductive HintDeps where
  | all
deriving DecidableEq, Repr

/-- Resolvo candidate answer, from the Candidates value built by
get_candidates in src/provider.rs. -/
structure Candidates where
  candidates : List Nat
  favored : Option Nat
  locked : Option Nat
  hint_dependencies_available : HintDeps
  excluded : List (Nat × Nat)
deriving DecidableEq, Repr

/-- Resolvo dependency answer. -/
inductive Dependencies where
  | known (deps : KnownDependencies)
  | unknown (reason : Nat)
deriving DecidableEq, Repr

/-- The pre-computed provider maps read by the solver callbacks, from
the fields of PortageDependencyProvider in src/provider.rs; the Rust
HashMaps become association lists. -/
structure ProviderMaps where
  candidates : List (Nat × List Nat)
  favored : List (Nat × Nat)
  locked : List (Nat × Nat)
  dependencies : List (Nat × KnownDependencies)

/-- Candidate callback, from get_candidates in src/provider.rs: an
unknown name id propagates the failed map lookup as None. -/
def get_candidates (prov : ProviderMaps) (name : Nat) : Option Candidates :=
  match assocFind prov.candidates name with
  | none => none
  | some solvables =>
    some { candidates := solvables,
           favored := assocFind prov.favored name,
           locked := assocFind prov.locked name,
           hint_dependencies_available := HintDeps.all,
           excluded := [] }

/-- Dependency callback, from get_dependencies in src/provider.rs: a
solvable absent from the dependency map answers Known with empty
requirements and constrains. -/
def get_dependencies (prov : ProviderMaps) (solvable : Nat) : Dependencies :=
  match assocFind prov.dependencies solvable with
  | some deps => Dependencies.known deps
  | none => Dependencies.known { requirements := [], constrains := [] }

/-- C10. The adapter is total on unknown ids: a name id with no
pre-built candidate vector makes get_candidates return None rather than
fail, and a solvable id absent from the dependency map makes
get_dependencies return Known dependencies with empty requirements and
empty constrains. -/
theorem c10_adapter_total_on_unknown_ids (prov : ProviderMaps) (name solvable : Nat)
    (hname : assocFind prov.candidates name = none)
    (hsid : assocFind prov.dependencies solvable = none) :
    get_candidates prov name = none ∧
    get_dependencies prov solvable =
      Dependencies.known { requirements := [], constrains := [] } := by
  constructor
  · unfold get_candidates
    rw [hname]
  · unfold get_dependencies
    rw [hsid]

/-- Witness for C10 at a concrete provider with empty maps and id 5. -/
theorem c10_witness :
    get_candidates ⟨[], [], [], []⟩ 5 = none ∧
    get_dependencies ⟨[], [], [], []⟩ 5 =
      Dependencies.known { requirements := [], constrains := [] } :=
  c10_adapter_total_on_unknown_ids ⟨[], [], [], []⟩ 5 5 (by decide) (by decide)

/-! ## C1: the reciprocal constrains of the flag virtuals -/

/-- Insert-or-replace into an association list; models HashMap insert. -/
def assocInsert {α β : Type} [DecidableEq α] : List (α × β) → α → β → List (α × β)
  | [], k, v => [(k, v)]
  | kv :: rest, k, v =>
    if kv.1 = k then (k, v) :: rest else kv :: assocInsert rest k v

/-- Append one value to the list entry of a key, creating the entry when
absent; models the entry-or-default-push pattern on HashMaps of vectors. -/
def assocInsertAppend {α γ : Type} [DecidableEq α] :
    List (α × List γ) → α → γ → List (α × List γ)
  | [], k, v => [(k, [v])]
  | kv :: rest, k, v =>
    if kv.1 = k then (kv.1, kv.2 ++ [v]) :: rest else kv :: assocInsertAppend rest k v

/-- Version 0, the constraint version used for every virtual solvable
in with_installed. -/
def version_zero : Version :=
  { op := none, numbers := ["0"], letter := none, suffixes := [], revision := 0,
    glob := false }

/-- Version 1.0, the version every virtual solvable is given. -/
def version_one_zero : Version :=
  { op := none, numbers := ["1", "0"], letter := none, suffixes := [], revision := 0,
    glob := false }

/-- Metadata of a flag virtual solvable, as constructed in phase 1.5 of
with_installed in src/provider.rs. -/
def flag_virtual_meta (cpn : Cpn) : PackageMetadata :=
  { cpv := ⟨cpn, version_one_zero⟩, slot := none, subslot := none, iuse := [],
    use_flags := [], repo := none, dependencies := default }

/-- Version constraint of a flag virtual, as constructed in phase 1.5 of
with_installed in src/provider.rs: operator at least version zero, and
inverted is false. -/
def flag_virtual_constraint (cpn : Cpn) : VersionConstraint :=
  { cpn := cpn, operator := Operator.greaterOrEqual, version := version_zero,
    slot := none, subslot := none, repo := none, use_constraints := [],
    inverted := false }

/-- Partial provider build state threaded through phase 1.5. -/
structure ProviderBuild where
  pool : PortagePool
  cpn_slots : List (Cpn × List Nat)
  candidates : List (Nat × List Nat)
  dep_map : List (Nat × KnownDependencies)

/-- Ids produced for one solver-decided flag; the name ids are returned
for inspection alongside the fields of the FlagVirtuals record. -/
structure FlagVirtualsBuilt where
  on_name_id : Nat
  off_name_id : Nat
  on_sid : Nat
  off_sid : Nat
  on_vs : Nat
  off_vs : Nat
  on_condition : Nat
  off_condition : Nat
  choice_union : Nat

/-- Phase 1.5 of with_installed in src/provider.rs for one
solver-decided flag: create the on and off virtual solvables, their
version sets and conditions, wire the reciprocal constrains into the
dependency map, and intern the choice union with the off virtual listed
first. -/
def build_flag_virtuals (flag : String) (b : ProviderBuild) :
    ProviderBuild × FlagVirtualsBuilt :=
  let on_cpn : Cpn := ⟨"virtual", "USE_" ++ flag⟩
  let r1 := b.pool.intern_name ⟨on_cpn, none⟩
  let on_name_id := r1.1
  let cpn_slots1 := assocInsertAppend b.cpn_slots on_cpn on_name_id
  let r2 := r1.2.intern_solvable on_name_id (flag_virtual_meta on_cpn)
  let on_sid := r2.1
  let candidates1 := assocInsertAppend b.candidates on_name_id on_sid
  let r3 := r2.2.intern_version_set on_name_id (flag_virtual_constraint on_cpn)
  let on_vs := r3.1
  let r4 := r3.2.intern_condition (RCondition.requirement on_vs)
  let on_cond := r4.1
  let off_cpn : Cpn := ⟨"virtual", "NotUSE_" ++ flag⟩
  let r5 := r4.2.intern_name ⟨off_cpn, none⟩
  let off_name_id := r5.1
  let cpn_slots2 := assocInsertAppend cpn_slots1 off_cpn off_name_id
  let r6 := r5.2.intern_solvable off_name_id (flag_virtual_meta off_cpn)
  let off_sid := r6.1
  let candidates2 := assocInsertAppend candidates1 off_name_id off_sid
  let r7 := r6.2.intern_version_set off_name_id (flag_virtual_constraint off_cpn)
  let off_vs := r7.1
  let r8 := r7.2.intern_condition (RCondition.requirement off_vs)
  let off_cond := r8.1
  let dep_map1 := assocInsert b.dep_map on_sid
    { requirements := [], constrains := [off_vs] }
  let dep_map2 := assocInsert dep_map1 off_sid
    { requirements := [], constrains := [on_vs] }
  let r9 := r8.2.intern_version_set_union [off_vs, on_vs]
  ({ pool := r9.2, cpn_slots := cpn_slots2, candidates := candidates2,
     dep_map := dep_map2 },
   { on_name_id := on_name_id, off_name_id := off_name_id, on_sid := on_sid,
     off_sid := off_sid, on_vs := on_vs, off_vs := off_vs, on_condition := on_cond,
     off_condition := off_cond, choice_union := r9.1 })

/-- C1. Evaluation of the code at the failing input, the solver-decided
flag ssl with an otherwise empty provider.  The two virtual solvables do
carry reciprocal constrains on each other, but both constraints are
built with inverted false and match their own candidate, so under the
constrain semantics of the adapter, which processes a constrain by
forbidding the candidates returned by filter_candidates with inverse set
to true, each constrain forbids the empty set: the solution containing
both virtuals survives every constrain, and the claimed mutual exclusion
is not enforced. -/
theorem c1_mutual_exclusion_unenforced :
    -- the reciprocal constrains are present as the claim describes
    (assocFind (build_flag_virtuals "ssl" ⟨PortagePool.empty, [], [], []⟩).1.dep_map
        (build_flag_virtuals "ssl" ⟨PortagePool.empty, [], [], []⟩).2.on_sid =
      some { requirements := [],
             constrains := [(build_flag_virtuals "ssl"
               ⟨PortagePool.empty, [], [], []⟩).2.off_vs] }) ∧
    (assocFind (build_flag_virtuals "ssl" ⟨PortagePool.empty, [], [], []⟩).1.dep_map
        (build_flag_virtuals "ssl" ⟨PortagePool.empty, [], [], []⟩).2.off_sid =
      some { requirements := [],
             constrains := [(build_flag_virtuals "ssl"
               ⟨PortagePool.empty, [], [], []⟩).2.on_vs] }) ∧
    -- the candidate list of each virtual name is its single virtual solvable
    (assocFind (build_flag_virtuals "ssl" ⟨PortagePool.empty, [], [], []⟩).1.candidates
        (build_flag_virtuals "ssl" ⟨PortagePool.empty, [], [], []⟩).2.off_name_id =
      some [(build_flag_virtuals "ssl" ⟨PortagePool.empty, [], [], []⟩).2.off_sid]) ∧
    -- yet the constrain of the on virtual forbids no candidate at all
    (filter_candidates (build_flag_virtuals "ssl" ⟨PortagePool.empty, [], [], []⟩).1.pool
        [(build_flag_virtuals "ssl" ⟨PortagePool.empty, [], [], []⟩).2.off_sid]
        (build_flag_virtuals "ssl" ⟨PortagePool.empty, [], [], []⟩).2.off_vs true = []) ∧
    -- and the constrain of the off virtual forbids no candidate either
    (filter_candidates (build_flag_virtuals "ssl" ⟨PortagePool.empty, [], [], []⟩).1.pool
        [(build_flag_virtuals "ssl" ⟨PortagePool.empty, [], [], []⟩).2.on_sid]
        (build_flag_virtuals "ssl" ⟨PortagePool.empty, [], [], []⟩).2.on_vs true = []) ∧
    -- each virtual does match its own version set, so the constrains would
    -- bite if the constraints were inverted like blockers are
    (filter_candidates (build_flag_virtuals "ssl" ⟨PortagePool.empty, [], [], []⟩).1.pool
        [(build_flag_virtuals "ssl" ⟨PortagePool.empty, [], [], []⟩).2.off_sid]
        (build_flag_virtuals "ssl" ⟨PortagePool.empty, [], [], []⟩).2.off_vs false =
      [(build_flag_virtuals "ssl" ⟨PortagePool.empty, [], [], []⟩).2.off_sid]) := by
  refine ⟨?_, ?_, ?_, ?_, ?_, ?_⟩ <;> decide

/-! ## Post-solve dependency graph (src/provider.rs) -/

/-- Labeled dependency edge between two solvables of a solution, from
DepEdge in src/pool.rs.  The Rust fields from and class are rendered
src and cls because both words are Lean keywords. -/
structure DepEdge where
  src : Nat
  dst : Nat
  cls : DepClass
deriving DecidableEq, Repr

/-- Post-solve atom match against a concrete package version, from
dep_matches_solvable in src/provider.rs. -/
def dep_matches_solvable (dep : Dep) (meta : PackageMetadata)
    (use_config : UseConfig) : Bool :=
  dep.cpn == meta.cpv.cpn &&
  version_matches meta.cpv.version (dep_op_version dep).1 (dep_op_version dep).2 &&
  (match (extract_slot dep).1 with
   | some required_slot => meta.slot == some required_slot
   | none => true) &&
  (match (extract_slot dep).2 with
   | some required_subslot => meta.subslot == some required_subslot
   | none => true) &&
  (match dep.repo with
   | some required_repo => meta.repo == some required_repo
   | none => true) &&
  ((resolve_use_deps dep use_config).all fun fc =>
    meta.use_flags.contains fc.1 == fc.2)

mutual
/-- Recursive edge collection over a list of dependency entries, from
collect_dep_edges in src/provider.rs; the Rust out-parameter vector of
edges becomes the returned list. -/
def collect_dep_edges (pool : PortagePool) (use_config : UseConfig) (src : Nat)
    (cls : DepClass) (solution : List Nat) : List DepEntry → List DepEdge
  | [] => []
  | entry :: rest =>
    collect_dep_edges_entry pool use_config src cls solution entry ++
      collect_dep_edges pool use_config src cls solution rest

/-- Edge collection for one dependency entry, from the match inside
collect_dep_edges in src/provider.rs.  Blocker atoms emit no edges; a
USE conditional is evaluated against the enabled and the solver-decided
sets of the USE config; group entries recurse into their children. -/
def collect_dep_edges_entry (pool : PortagePool) (use_config : UseConfig) (src : Nat)
    (cls : DepClass) (solution : List Nat) : DepEntry → List DepEdge
  | DepEntry.atom dep =>
    if dep.blocker.isSome then []
    else
      (solution.filter fun t =>
        t != src && dep_matches_solvable dep (pool.resolve_solvable t) use_config).map
        fun t => { src := src, dst := t, cls := cls }
  | DepEntry.useConditional flag negate children =>
    let flag_active := use_config.enabled.contains flag ||
      use_config.solver_decided.contains flag
    let incl := if negate then !flag_active else flag_active
    if incl then collect_dep_edges pool use_config src cls solution children else []
  | DepEntry.anyOf alternatives =>
    collect_dep_edges pool use_config src cls solution alternatives
  | DepEntry.exactlyOneOf alternatives =>
    collect_dep_edges pool use_config src cls solution alternatives
  | DepEntry.atMostOneOf alternatives =>
    collect_dep_edges pool use_config src cls solution alternatives
end

/-- Labeled dependency graph of a solver solution, from dependency_graph
in src/provider.rs. -/
def dependency_graph (pool : PortagePool) (use_config : UseConfig)
    (solution : List Nat) : List DepEdge :=
  (solution.map fun src =>
    (((pool.resolve_solvable src).dependencies.iter_classes.map fun ce =>
      collect_dep_edges pool use_config src ce.1 solution ce.2).flatten)).flatten

/-! ## C4: USE conditionals in the post-solve graph -/

/-- C4 amended. In collect_dep_edges a USE-conditional subtree is
evaluated against the USE config only, never against the solution: for a
solver-decided flag the flag counts as active unconditionally, so a
non-negated subtree is always included and a negated one always dropped,
regardless of whether the on-virtual is in the solution; a flag that is
neither eager-on nor solver-decided counts as off. -/
theorem c4_amended_solver_decided_always_active (pool : PortagePool)
    (use_config : UseConfig) (src : Nat) (cls : DepClass) (solution : List Nat)
    (flag : String) (negate : Bool) (children : List DepEntry) :
    (use_config.solver_decided.contains flag = true →
      collect_dep_edges_entry pool use_config src cls solution
          (DepEntry.useConditional flag negate children) =
        if negate then []
        else collect_dep_edges pool use_config src cls solution children) ∧
    (use_config.enabled.contains flag = false →
      use_config.solver_decided.contains flag = false →
      collect_dep_edges_entry pool use_config src cls solution
          (DepEntry.useConditional flag negate children) =
        if negate then collect_dep_edges pool use_config src cls solution children
        else []) := by
  constructor
  · intro hdec
    rw [collect_dep_edges_entry]
    simp only [hdec, Bool.or_true]
    cases negate <;> simp
  · intro hen hdec
    rw [collect_dep_edges_entry]
    simp only [hen, hdec, Bool.or_false]
    cases negate <;> simp

/-- Witness for C4 amended: a solver-decided flag with a negated
conditional produces no edges, applied at a concrete configuration. -/
theorem c4_amended_witness :
    collect_dep_edges_entry PortagePool.empty ⟨[], [], ["ssl"]⟩ 0 DepClass.rdepend [0, 1]
        (DepEntry.useConditional "ssl" true []) = [] := by
  have h := (c4_amended_solver_decided_always_active PortagePool.empty
    ⟨[], [], ["ssl"]⟩ 0 DepClass.rdepend [0, 1] "ssl" true []).1 (by decide)
  rw [h]
  simp

/-- Solvable metadata of the package app/foo-1.0 whose runtime tree is
one USE conditional on ssl around an atom on dev-lib/bar. -/
def c4_foo_meta : PackageMetadata :=
  { cpv := ⟨⟨"app", "foo"⟩, version_one_zero⟩, slot := some "0", subslot := none,
    iuse := ["ssl"], use_flags := [], repo := none,
    dependencies :=
      { depend := [], bdepend := [], pdepend := [], idepend := [],
        rdepend := [DepEntry.useConditional "ssl" false
          [DepEntry.atom
            { cpn := ⟨"dev-lib", "bar"⟩, version := none, slot_dep := none,
              repo := none, use_deps := none, blocker := none }]] } }

/-- Solvable metadata of a dependency target dev-lib/bar-1.0, shared by
the concrete graph and install-order inputs. -/
def demo_bar_meta : PackageMetadata :=
  { cpv := ⟨⟨"dev-lib", "bar"⟩, version_one_zero⟩, slot := some "0", subslot := none,
    iuse := [], use_flags := [], repo := none, dependencies := default }

/-- Pool of the C4 counterexample: the two real packages followed by the
virtual solvables of the solver-decided flag ssl, built by the phase
1.5 fragment so that the on-virtual id is the genuine one. -/
def c4_build : ProviderBuild × FlagVirtualsBuilt :=
  build_flag_virtuals "ssl"
    { pool :=
        { PortagePool.empty with
            names := [⟨⟨"app", "foo"⟩, some "0"⟩, ⟨⟨"dev-lib", "bar"⟩, some "0"⟩],
            names_rev := [(⟨⟨"app", "foo"⟩, some "0"⟩, 0), (⟨⟨"dev-lib", "bar"⟩, some "0"⟩, 1)],
            solvables := [c4_foo_meta, demo_bar_meta],
            solvable_names := [0, 1] },
      cpn_slots := [(⟨"app", "foo"⟩, [0]), (⟨"dev-lib", "bar"⟩, [1])],
      candidates := [(0, [0]), (1, [1])],
      dep_map := [] }

/-- C4 counterexample. The claim fails on the code: with ssl
solver-decided, the solution containing only foo and bar, and the
on-virtual not a member of the solution, dependency_graph still emits
the edge of the ssl-conditional subtree, whereas the claim requires the
subtree edges to be included only when the on-virtual is in the
solution. -/
theorem c4_counterexample :
    dependency_graph c4_build.1.pool ⟨[], [], ["ssl"]⟩ [0, 1] =
      [{ src := 0, dst := 1, cls := DepClass.rdepend }] ∧
    c4_build.2.on_sid ∉ ([0, 1] : List Nat) := by
  constructor
  · decide
  · decide

/-! ## Atom compilation (convert_atom in src/provider.rs) -/

/-- Mutable conversion state threaded through convert_atom: the pool,
the per-CPN slot-name map, the blocker and rebuild-trigger side tables,
and the requirement and constrain out-parameters, from ConvertContext
and the two output vectors in src/provider.rs.  The Rust HashSet of
rebuild triggers becomes a list with guarded insertion. -/
structure ConvertState where
  pool : PortagePool
  cpn_slots : List (Cpn × List Nat)
  blocker_types : List (Nat × Blocker)
  rebuild_triggers : List Nat
  requirements : List ConditionalRequirement
  constrains : List Nat

/-- Convert a single dependency atom into requirements and constrains,
from convert_atom in src/provider.rs.  A slotted dep targets the single
slotted name id; an unslotted dep with known slots interns one
constraint per slot name and unions the results; an unknown CPN mints a
slotless name so the solver can answer no-candidates. -/
def convert_atom (dep : Dep) (use_config : UseConfig) (st : ConvertState) : ConvertState :=
  let slot := (extract_slot dep).1
  let subslot := (extract_slot dep).2
  let repo := dep.repo
  let use_constraints := resolve_use_deps dep use_config
  let blocker := dep.blocker
  let is_blocker := blocker.isSome
  let is_rebuild_trigger := has_slot_equal_op dep
  let op := (dep_op_version dep).1
  let version := (dep_op_version dep).2
  -- Helper: push a version set as a blocker constrain, recording its type.
  let push_blocker := fun (s : ConvertState) (vs_id : Nat) =>
    let s := { s with constrains := s.constrains ++ [vs_id] }
    match blocker with
    | some b => { s with blocker_types := assocInsert s.blocker_types vs_id b }
    | none => s
  -- Helper: record a version set as a rebuild trigger.
  let mark_trigger := fun (s : ConvertState) (vs_id : Nat) =>
    if is_rebuild_trigger then
      if s.rebuild_triggers.contains vs_id then s
      else { s with rebuild_triggers := s.rebuild_triggers ++ [vs_id] }
    else s
  match slot with
  | some slot_val =>
    -- Slotted dep: targets a single name id.
    let r1 := st.pool.intern_name ⟨dep.cpn, some slot_val⟩
    let constraint : VersionConstraint :=
      { cpn := dep.cpn, operator := op, version := version, slot := some slot_val,
        subslot := subslot, repo := repo, use_constraints := use_constraints,
        inverted := is_blocker }
    let r2 := r1.2.intern_version_set r1.1 constraint
    let vs_id := r2.1
    let st := mark_trigger { st with pool := r2.2 } vs_id
    if is_blocker then push_blocker st vs_id
    else { st with requirements := st.requirements ++
      [{ condition := none, requirement := Requirement.single vs_id }] }
  | none =>
    -- Unslotted dep: union over all known slots.
    match assocFind st.cpn_slots dep.cpn with
    | some names =>
      if names.length = 1 then
        let name_id := names.getD 0 0
        let constraint : VersionConstraint :=
          { cpn := dep.cpn, operator := op, version := version, slot := none,
            subslot := none, repo := repo, use_constraints := use_constraints,
            inverted := is_blocker }
        let r2 := st.pool.intern_version_set name_id constraint
        let vs_id := r2.1
        let st := mark_trigger { st with pool := r2.2 } vs_id
        if is_blocker then push_blocker st vs_id
        else { st with requirements := st.requirements ++
          [{ condition := none, requirement := Requirement.single vs_id }] }
      else
        let step := names.foldl
          (fun (acc : PortagePool × List Nat) name_id =>
            let constraint : VersionConstraint :=
              { cpn := dep.cpn, operator := op, version := version, slot := none,
                subslot := none, repo := repo, use_constraints := use_constraints,
                inverted := is_blocker }
            let r2 := acc.1.intern_version_set name_id constraint
            (r2.2, acc.2 ++ [r2.1]))
          (st.pool, [])
        let vs_ids := step.2
        let st := vs_ids.foldl mark_trigger { st with pool := step.1 }
        if is_blocker then vs_ids.foldl push_blocker st
        else if vs_ids.length = 1 then
          { st with requirements := st.requirements ++
            [{ condition := none, requirement := Requirement.single (vs_ids.getD 0 0) }] }
        else
          let ru := st.pool.intern_version_set_union vs_ids
          { st with pool := ru.2, requirements := st.requirements ++
            [{ condition := none, requirement := Requirement.union ru.1 }] }
    | none =>
      -- Package not in the repository: mint a name so the solver can
      -- report the unsatisfied dependency.
      let r1 := st.pool.intern_name ⟨dep.cpn, none⟩
      let constraint : VersionConstraint :=
        { cpn := dep.cpn, operator := op, version := version, slot := none,
          subslot := none, repo := repo, use_constraints := use_constraints,
          inverted := is_blocker }
      let r2 := r1.2.intern_version_set r1.1 constraint
      let vs_id := r2.1
      let st := mark_trigger { st with pool := r2.2 } vs_id
      if is_blocker then push_blocker st vs_id
      else { st with requirements := st.requirements ++
        [{ condition := none, requirement := Requirement.single vs_id }] }

/-! ## C5: unslotted atoms over several known slots -/

/-- Conversion state of the C5 failing input: a pool holding the two
slot names of dev-lang/python, with the slot map recording both ids. -/
def c5_state : ConvertState :=
  let r1 := PortagePool.empty.intern_name ⟨⟨"dev-lang", "python"⟩, some "3.11"⟩
  let r2 := r1.2.intern_name ⟨⟨"dev-lang", "python"⟩, some "3.12"⟩
  { pool := r2.2,
    cpn_slots := [(⟨"dev-lang", "python"⟩, [r1.1, r2.1])],
    blocker_types := [], rebuild_triggers := [], requirements := [], constrains := [] }

/-- The unslotted, unversioned, non-blocker atom dev-lang/python. -/
def c5_dep : Dep :=
  { cpn := ⟨"dev-lang", "python"⟩, version := none, slot_dep := none, repo := none,
    use_deps := none, blocker := none }

/-- C5. Evaluation of the code at the failing input: an unslotted atom
on a CPN with two interned slot names.  The emitted requirement is a
union of two version-set ids, but the per-name constraints are value
identical, so intern_version_set dedups them to one id: the union is the
same id twice, the single version set is attached to the first slot name
id only, and no version set of the pool is attached to the second slot
name id.  The claim that the requirement ranges over version sets for
all N slot name ids, admitting any slot, fails. -/
theorem c5_unslotted_union_collapses_to_first_slot :
    ((convert_atom c5_dep ⟨[], [], []⟩ c5_state).requirements =
      [{ condition := none, requirement := Requirement.union 0 }]) ∧
    ((convert_atom c5_dep ⟨[], [], []⟩ c5_state).pool.resolve_version_set_union 0 =
      [0, 0]) ∧
    ((convert_atom c5_dep ⟨[], [], []⟩ c5_state).pool.version_sets.length = 1) ∧
    ((convert_atom c5_dep ⟨[], [], []⟩ c5_state).pool.version_set_name 0 = 0) ∧
    ((convert_atom c5_dep ⟨[], [], []⟩ c5_state).pool.version_set_names = [0]) ∧
    (c5_state.cpn_slots = [(⟨"dev-lang", "python"⟩, [0, 1])]) := by
  refine ⟨?_, ?_, ?_, ?_, ?_, ?_⟩ <;> decide

/-! ## Install order (install_order in src/provider.rs) -/

/-- Comparison of Cpv values used as the deterministic sort key of
install_order. Modelled from the spec: lexicographic by CPV, so by
category, package name, and then the PMS version order. -/
def cpvCompare (a b : Cpv) : Ordering :=
  ((compare a.cpn.category b.cpn.category).then
    (compare a.cpn.name b.cpn.name)).then (pmsCompare a.version b.version)

/-- Boolean less-or-equal on solvable ids by their Cpv, the comparator
install_order sorts with. -/
def cpv_le (pool : PortagePool) (a b : Nat) : Bool :=
  cpvCompare (pool.resolve_solvable a).cpv (pool.resolve_solvable b).cpv != Ordering.gt

/-- One decrement of the Kahn loop body, from the for loop over the
dependents of a popped node in install_order in src/provider.rs: the
in-degree of the dependent drops by one and the dependent is collected
when it reaches zero. -/
def decrement_step (acc : (Nat → Nat) × List Nat) (dep : Nat) : (Nat → Nat) × List Nat :=
  (Function.update acc.1 dep (acc.1 dep - 1),
   if acc.1 dep - 1 = 0 then acc.2 ++ [dep] else acc.2)

/-- Decrement every dependent of a popped node and collect the newly
ready ones, from the dependents loop of install_order. -/
def decrement_all (dependents : List Nat) (indeg : Nat → Nat) : (Nat → Nat) × List Nat :=
  dependents.foldl decrement_step (indeg, [])

/-- The Kahn worklist loop of install_order in src/provider.rs.  The
fuel argument only serves Lean termination: install_order passes one
more than the solution length, which the proofs below show is never
exhausted, because every iteration moves one distinct solution member
into the order. -/
def kahn_loop (pool : PortagePool) (adj : Nat → List Nat) :
    Nat → List Nat → (Nat → Nat) → List Nat → List Nat
  | 0, _, _, order => order
  | _ + 1, [], _, order => order
  | fuel + 1, node :: queue, indeg, order =>
    kahn_loop pool adj fuel
      (queue ++ List.insertionSort (fun a b => cpv_le pool a b = true)
        (decrement_all (adj node) indeg).2)
      (decrement_all (adj node) indeg).1
      (order ++ [node])

/-- The non-PDEPEND edges of the dependency graph.  The source skips
PDEPEND edges inside the adjacency loop of install_order; filtering them
once up front gives the same adjacency and in-degrees. -/
def hard_edges (pool : PortagePool) (use_config : UseConfig)
    (solution : List Nat) : List DepEdge :=
  (dependency_graph pool use_config solution).filter
    fun e => e.cls != DepClass.pdepend

/-- Install-order adjacency, from the adj map of install_order in
src/provider.rs: the dependents of a node are the sources of the
non-PDEPEND edges targeting it, in edge order. -/
def kahn_adj (pool : PortagePool) (use_config : UseConfig)
    (solution : List Nat) : Nat → List Nat :=
  fun n => ((hard_edges pool use_config solution).filter
    fun e => e.dst == n).map fun e => e.src

/-- Initial in-degrees, from the in_degree map of install_order in
src/provider.rs: one per non-PDEPEND edge leaving the node. -/
def kahn_indeg (pool : PortagePool) (use_config : UseConfig)
    (solution : List Nat) : Nat → Nat :=
  fun n => ((hard_edges pool use_config solution).filter
    fun e => e.src == n).length

/-- Install order of a solver solution, from install_order in
src/provider.rs: Kahn topological sort over the non-PDEPEND edges of the
dependency graph, initial frontier the zero in-degree solution members
sorted by Cpv, with the unordered remainder returned as the cycle
report. -/
def install_order (pool : PortagePool) (use_config : UseConfig)
    (solution : List Nat) : Except (List Nat) (List Nat) :=
  let order := kahn_loop pool (kahn_adj pool use_config solution)
    (solution.length + 1)
    (List.insertionSort (fun a b => cpv_le pool a b = true)
      (solution.filter fun n => kahn_indeg pool use_config solution n == 0))
    (kahn_indeg pool use_config solution) []
  if order.length = solution.length then Except.ok order
  else Except.error (solution.filter fun n => !(order.contains n))

/-- Every edge of the post-solve graph connects two solution members
and starts at the solvable whose tree is being walked. -/
theorem collect_dep_edges_endpoints (pool : PortagePool) (uc : UseConfig)
    (src : Nat) (cls : DepClass) (sol : List Nat) :
    (∀ entries, ∀ e ∈ collect_dep_edges pool uc src cls sol entries,
      e.src = src ∧ e.dst ∈ sol) ∧
    (∀ entry, ∀ e ∈ collect_dep_edges_entry pool uc src cls sol entry,
      e.src = src ∧ e.dst ∈ sol) := by
  refine collect_dep_edges.mutual_induct pool uc src cls sol _ _
    ?_ ?_ ?_ ?_ ?_ ?_ ?_ ?_ ?_
  · -- blocker atom: no edges
    intro dep hb e he
    rw [collect_dep_edges_entry] at he
    rw [if_pos hb] at he
    simp at he
  · -- non-blocker atom: edges into the filtered solution
    intro dep hb e he
    rw [collect_dep_edges_entry] at he
    rw [if_neg hb] at he
    rcases List.mem_map.mp he with ⟨t, ht, rfl⟩
    exact ⟨rfl, (List.mem_filter.mp ht).1⟩
  · -- included use conditional
    intro flag negate children flag_active incl hincl ih e he
    rw [collect_dep_edges_entry] at he
    rw [if_pos hincl] at he
    exact ih e he
  · -- dropped use conditional
    intro flag negate children flag_active incl hincl e he
    rw [collect_dep_edges_entry] at he
    rw [if_neg hincl] at he
    simp at he
  · -- any-of
    intro alternatives ih e he
    rw [collect_dep_edges_entry] at he
    exact ih e he
  · -- exactly-one-of
    intro alternatives ih e he
    rw [collect_dep_edges_entry] at he
    exact ih e he
  · -- at-most-one-of
    intro alternatives ih e he
    rw [collect_dep_edges_entry] at he
    exact ih e he
  · -- nil
    intro e he
    rw [collect_dep_edges] at he
    simp at he
  · -- cons
    intro entry rest ih1 ih2 e he
    rw [collect_dep_edges] at he
    rcases List.mem_append.mp he with h | h
    · exact ih1 e h
    · exact ih2 e h

/-- Endpoints of dependency_graph edges: the source is the walked
solution member and the target is a solution member. -/
theorem dependency_graph_endpoints (pool : PortagePool) (uc : UseConfig)
    (sol : List Nat) :
    ∀ e ∈ dependency_graph pool uc sol, e.src ∈ sol ∧ e.dst ∈ sol := by
  intro e he
  unfold dependency_graph at he
  rcases List.mem_flatten.mp he with ⟨inner, hinner, hein⟩
  rcases List.mem_map.mp hinner with ⟨src, hsrc, rfl⟩
  rcases List.mem_flatten.mp hein with ⟨inner2, hinner2, hein2⟩
  rcases List.mem_map.mp hinner2 with ⟨ce, _, rfl⟩
  have := (collect_dep_edges_endpoints pool uc src ce.1 sol).1 ce.2 e hein2
  exact ⟨this.1 ▸ hsrc, this.2⟩

/-! ## Lemmas about the decrement fold of the Kahn loop -/

/-- Behaviour of the decrement fold with an arbitrary accumulator: when
no in-degree underflows, the fold subtracts the occurrence count from
every in-degree and appends, without duplicates, exactly the dependents
whose in-degree reaches zero. -/
theorem decrement_fold_spec (deps : List Nat) (f : Nat → Nat) (acc : List Nat)
    (hcnt : ∀ n, deps.count n ≤ f n) :
    (∀ n, (deps.foldl decrement_step (f, acc)).1 n = f n - deps.count n) ∧
    ∃ t, (deps.foldl decrement_step (f, acc)).2 = acc ++ t ∧ t.Nodup ∧
      (∀ n, n ∈ t ↔ n ∈ deps ∧ f n = deps.count n) := by
  induction deps generalizing f acc with
  | nil =>
    refine ⟨fun n => by simp, [], by simp, by simp, fun n => by simp⟩
  | cons d ds ih =>
    have hstep : decrement_step (f, acc) d =
        (Function.update f d (f d - 1),
         if f d - 1 = 0 then acc ++ [d] else acc) := rfl
    have hcnt_d : ds.count d + 1 ≤ f d := by
      have := hcnt d
      rw [List.count_cons] at this
      simpa using this
    have hcnt1 : ∀ n, ds.count n ≤ Function.update f d (f d - 1) n := by
      intro n
      by_cases hn : n = d
      · subst hn
        rw [Function.update_same]
        omega
      · rw [Function.update_noteq hn]
        have := hcnt n
        rw [List.count_cons] at this
        simp [Ne.symm hn] at this
        omega
    obtain ⟨h1, t, h2, h3, h4⟩ :=
      ih (Function.update f d (f d - 1)) (if f d - 1 = 0 then acc ++ [d] else acc) hcnt1
    rw [List.foldl_cons, hstep]
    refine ⟨?_, ?_⟩
    · intro n
      rw [h1 n, List.count_cons]
      by_cases hn : n = d
      · subst hn
        rw [Function.update_same]
        simp
        omega
      · rw [Function.update_noteq hn]
        simp [Ne.symm hn]
    · refine ⟨(if f d - 1 = 0 then [d] else []) ++ t, ?_, ?_, ?_⟩
      · rw [h2]
        by_cases hz : f d - 1 = 0 <;> simp [hz]
      · by_cases hz : f d - 1 = 0
        · simp only [hz, if_pos]
          simp only [List.singleton_append, List.nodup_cons]
          refine ⟨?_, h3⟩
          intro hd
          have := (h4 d).mp hd
          rw [Function.update_same] at this
          have hds : d ∉ ds := by
            intro hmem
            have : 0 < ds.count d := List.count_pos_iff.mpr hmem
            omega
          exact hds this.1
        · simp only [hz, if_neg, Bool.not_eq_true]
          simpa using h3
      · intro n
        by_cases hn : n = d
        · subst hn
          have hA : (n :: ds).count n = ds.count n + 1 := by
            rw [List.count_cons]
            simp
          have hC := h4 n
          rw [Function.update_same] at hC
          have hmem_lhs : n ∈ (if f n - 1 = 0 then [n] else []) ++ t ↔
              (f n - 1 = 0 ∨ n ∈ t) := by
            by_cases hz : f n - 1 = 0 <;> simp [hz]
          rw [hmem_lhs, hA, hC]
          constructor
          · intro h
            refine ⟨List.mem_cons_self _ _, ?_⟩
            rcases h with h | h
            · omega
            · obtain ⟨hds, hq⟩ := h
              omega
          · rintro ⟨-, heq⟩
            by_cases hds : n ∈ ds
            · exact Or.inr ⟨hds, by omega⟩
            · have : ds.count n = 0 := List.count_eq_zero.mpr hds
              omega
        · have hsplit : n ∈ (if f d - 1 = 0 then [d] else []) ++ t ↔ n ∈ t := by
            by_cases hz : f d - 1 = 0 <;> simp [hz, hn]
          rw [hsplit, h4 n, Function.update_noteq hn, List.count_cons]
          simp [Ne.symm hn, hn]

/-- Specialisation of the fold lemma to decrement_all as called by the
Kahn loop. -/
theorem decrement_all_spec (deps : List Nat) (f : Nat → Nat)
    (hcnt : ∀ n, deps.count n ≤ f n) :
    (∀ n, (decrement_all deps f).1 n = f n - deps.count n) ∧
    (decrement_all deps f).2.Nodup ∧
    (∀ n, n ∈ (decrement_all deps f).2 ↔ n ∈ deps ∧ f n = deps.count n) := by
  obtain ⟨h1, t, h2, h3, h4⟩ := decrement_fold_spec deps f [] hcnt
  unfold decrement_all
  rw [List.nil_append] at h2
  exact ⟨h1, h2 ▸ h3, fun n => h2 ▸ h4 n⟩

/-! ## takeWhile and indexOf lemmas for the topological order -/

/-- takeWhile up to an element already inside the left part of an append
ignores the right part. -/
theorem takeWhile_ne_append_of_mem (l l2 : List Nat) (node : Nat) (hmem : node ∈ l) :
    (l ++ l2).takeWhile (fun x => x != node) = l.takeWhile (fun x => x != node) := by
  induction l with
  | nil => simp at hmem
  | cons h t ih =>
    by_cases hh : h = node
    · subst hh
      simp [List.takeWhile_cons]
    · have : node ∈ t := by
        rcases List.mem_cons.mp hmem with h1 | h1
        · exact absurd h1.symm hh
        · exact h1
      simp only [List.cons_append, List.takeWhile_cons]
      have hne : (h != node) = true := by simp [hh]
      rw [hne]
      simp only [if_pos]
      rw [ih this]

/-- takeWhile over an append ending at a fresh element returns the whole
left part. -/
theorem takeWhile_ne_append_self (l : List Nat) (node : Nat) (hnot : node ∉ l) :
    (l ++ [node]).takeWhile (fun x => x != node) = l := by
  induction l with
  | nil => simp
  | cons h t ih =>
    have hh : h ≠ node := by
      intro heq
      exact hnot (heq ▸ List.mem_cons_self h t)
    have : node ∉ t := fun hmem => hnot (List.mem_cons_of_mem _ hmem)
    simp only [List.cons_append, List.takeWhile_cons]
    have hne : (h != node) = true := by simp [hh]
    rw [hne]
    simp only [if_pos]
    rw [ih this]

/-- An element of the prefix before b sits at a strictly smaller index
than b. -/
theorem indexOf_lt_of_mem_takeWhile_ne (l : List Nat) (a b : Nat)
    (ha : a ∈ l.takeWhile (fun x => x != b)) (hb : b ∈ l) :
    List.indexOf a l < List.indexOf b l := by
  induction l with
  | nil => simp at hb
  | cons h t ih =>
    by_cases hh : h = b
    · subst hh
      rw [List.takeWhile_cons] at ha
      simp at ha
    · rw [List.takeWhile_cons] at ha
      have hne : (h != b) = true := by simp [hh]
      rw [hne] at ha
      simp only [if_pos] at ha
      have hbt : b ∈ t := by
        rcases List.mem_cons.mp hb with h1 | h1
        · exact absurd h1.symm hh
        · exact h1
      rcases List.mem_cons.mp ha with h1 | h1
      · subst h1
        rw [List.indexOf_cons_self, List.indexOf_cons_ne _ hh]
        omega
      · by_cases hah : a = h
        · subst hah
          rw [List.indexOf_cons_self, List.indexOf_cons_ne _ hh]
          omega
        · rw [List.indexOf_cons_ne _ (fun e => hah e.symm),
            List.indexOf_cons_ne _ hh]
          have := ih h1 hbt
          omega

/-! ## The Kahn loop invariant and its preservation -/

/-- Splitting a countP along a second predicate. -/
theorem countP_and_split {α : Type} (l : List α) (p q : α → Bool) :
    List.countP p l =
      List.countP (fun a => p a && q a) l + List.countP (fun a => p a && !q a) l := by
  induction l with
  | nil => simp
  | cons a t ih =>
    rw [List.countP_cons, List.countP_cons, List.countP_cons]
    cases hp : p a <;> cases hq : q a <;> simp [hp, hq] <;> omega

/-- Endpoints of the non-PDEPEND edge list are solution members. -/
theorem hard_edges_endpoints (pool : PortagePool) (uc : UseConfig) (sol : List Nat) :
    ∀ e ∈ hard_edges pool uc sol, e.src ∈ sol ∧ e.dst ∈ sol := by
  intro e he
  exact dependency_graph_endpoints pool uc sol e (List.mem_filter.mp he).1

/-- Invariant of the Kahn worklist loop of install_order: the order and
the queue are duplicate free, disjoint, and drawn from the solution; the
in-degree of a node counts its non-PDEPEND edges into targets not yet
ordered; a solution member has been placed into order or queue exactly
when its in-degree dropped to zero; and every ordered source has all of
its targets earlier in the order. -/
structure KahnInv (pool : PortagePool) (uc : UseConfig) (sol : List Nat)
    (queue : List Nat) (indeg : Nat → Nat) (order : List Nat) : Prop where
  order_nodup : order.Nodup
  queue_nodup : queue.Nodup
  disj : ∀ n, n ∈ order → n ∈ queue → False
  order_sub : ∀ n ∈ order, n ∈ sol
  queue_sub : ∀ n ∈ queue, n ∈ sol
  indeg_eq : ∀ n, indeg n = ((hard_edges pool uc sol).filter
    (fun e => e.src == n && !(decide (e.dst ∈ order)))).length
  placed_iff : ∀ n ∈ sol, ((n ∈ order ∨ n ∈ queue) ↔ indeg n = 0)
  topo : ∀ e ∈ hard_edges pool uc sol, e.src ∈ order →
    e.dst ∈ order.takeWhile (fun x => x != e.src)

/-- Main induction for the Kahn loop: from any state satisfying the
invariant, with fuel exceeding the number of still unordered solution
members, the loop extends the order to a duplicate-free list of solution
members that respects every non-PDEPEND edge, and every solution member
it leaves out keeps a non-PDEPEND edge into another left-out member. -/
theorem kahn_loop_spec (pool : PortagePool) (uc : UseConfig) (sol : List Nat)
    (hnd : sol.Nodup) :
    ∀ (fuel : Nat) (queue : List Nat) (indeg : Nat → Nat) (order : List Nat),
      KahnInv pool uc sol queue indeg order →
      (sol.filter fun n => !(order.contains n)).length < fuel →
      (∃ t, kahn_loop pool (kahn_adj pool uc sol) fuel queue indeg order = order ++ t) ∧
      (kahn_loop pool (kahn_adj pool uc sol) fuel queue indeg order).Nodup ∧
      (∀ n ∈ kahn_loop pool (kahn_adj pool uc sol) fuel queue indeg order, n ∈ sol) ∧
      (∀ e ∈ hard_edges pool uc sol,
        e.src ∈ kahn_loop pool (kahn_adj pool uc sol) fuel queue indeg order →
        e.dst ∈ (kahn_loop pool (kahn_adj pool uc sol) fuel queue indeg order).takeWhile
          (fun x => x != e.src)) ∧
      (∀ n ∈ sol, n ∉ kahn_loop pool (kahn_adj pool uc sol) fuel queue indeg order →
        ∃ e ∈ hard_edges pool uc sol, e.src = n ∧ e.dst ∈ sol ∧
          e.dst ∉ kahn_loop pool (kahn_adj pool uc sol) fuel queue indeg order) := by
  intro fuel
  induction fuel with
  | zero =>
    intro queue indeg order hinv hfuel
    omega
  | succ fuel ih =>
    intro queue indeg order hinv hfuel
    cases queue with
    | nil =>
      simp only [kahn_loop]
      refine ⟨⟨[], by simp⟩, hinv.order_nodup, hinv.order_sub, hinv.topo, ?_⟩
      intro n hn hnot
      have hindeg_ne : indeg n ≠ 0 := by
        intro h0
        rcases (hinv.placed_iff n hn).mpr h0 with h | h
        · exact hnot h
        · simp at h
      rw [hinv.indeg_eq n] at hindeg_ne
      have hpos : 0 < ((hard_edges pool uc sol).filter
          (fun e => e.src == n && !(decide (e.dst ∈ order)))).length := by omega
      obtain ⟨e, he⟩ := List.exists_mem_of_length_pos hpos
      obtain ⟨hee, hp⟩ := List.mem_filter.mp he
      simp only [Bool.and_eq_true, beq_iff_eq, Bool.not_eq_true', decide_eq_false_iff_not] at hp
      exact ⟨e, hee, hp.1, (hard_edges_endpoints pool uc sol e hee).2, hp.2⟩
    | cons node rest =>
      have hnode_sol : node ∈ sol := hinv.queue_sub node (List.mem_cons_self _ _)
      have hnode_not_order : node ∉ order :=
        fun h => hinv.disj node h (List.mem_cons_self _ _)
      have hnode_not_rest : node ∉ rest := (List.nodup_cons.mp hinv.queue_nodup).1
      have hrest_nodup : rest.Nodup := (List.nodup_cons.mp hinv.queue_nodup).2
      have hindeg_node : indeg node = 0 :=
        (hinv.placed_iff node hnode_sol).mp (Or.inr (List.mem_cons_self _ _))
      -- occurrence counts in the adjacency of the popped node
      have hdeps_count : ∀ n, (kahn_adj pool uc sol node).count n =
          List.countP (fun e => e.src == n && e.dst == node)
            (hard_edges pool uc sol) := by
        intro n
        unfold kahn_adj
        rw [List.count_eq_countP, List.countP_map, List.countP_filter]
        apply List.countP_congr
        intro e he
        simp [Function.comp, Bool.and_comm]
      have hcnt : ∀ n, (kahn_adj pool uc sol node).count n ≤ indeg n := by
        intro n
        rw [hdeps_count n, hinv.indeg_eq n, ← List.countP_eq_length_filter]
        apply List.countP_mono_left
        intro e he hp
        simp only [Bool.and_eq_true, beq_iff_eq] at hp
        simp only [Bool.and_eq_true, beq_iff_eq, Bool.not_eq_true',
          decide_eq_false_iff_not]
        exact ⟨hp.1, hp.2 ▸ hnode_not_order⟩
      obtain ⟨hupd, hnodup_dec, hmem_dec⟩ :=
        decrement_all_spec (kahn_adj pool uc sol node) indeg hcnt
      -- the sorted ready list
      have hnext_mem : ∀ n,
          n ∈ List.insertionSort (fun a b => cpv_le pool a b = true)
            (decrement_all (kahn_adj pool uc sol node) indeg).2 ↔
          (n ∈ kahn_adj pool uc sol node ∧
            indeg n = (kahn_adj pool uc sol node).count n) := by
        intro n
        rw [List.mem_insertionSort]
        exact hmem_dec n
      have hnext_nodup :
          (List.insertionSort (fun a b => cpv_le pool a b = true)
            (decrement_all (kahn_adj pool uc sol node) indeg).2).Nodup :=
        (List.perm_insertionSort _ _).symm.nodup hnodup_dec
      have hnext_props : ∀ n,
          n ∈ List.insertionSort (fun a b => cpv_le pool a b = true)
            (decrement_all (kahn_adj pool uc sol node) indeg).2 →
          n ∈ sol ∧ n ∉ order ∧ n ∉ node :: rest := by
        intro n hmem
        obtain ⟨hdep, hzero⟩ := (hnext_mem n).mp hmem
        have hn_sol : n ∈ sol := by
          unfold kahn_adj at hdep
          rcases List.mem_map.mp hdep with ⟨e, hef, rfl⟩
          exact (hard_edges_endpoints pool uc sol e (List.mem_filter.mp hef).1).1
        have hcountpos : 0 < (kahn_adj pool uc sol node).count n :=
          List.count_pos_iff.mpr hdep
        have hindeg_ne : indeg n ≠ 0 := by omega
        have hnor : ¬(n ∈ order ∨ n ∈ node :: rest) :=
          fun hor => hindeg_ne ((hinv.placed_iff n hn_sol).mp hor)
        push_neg at hnor
        exact ⟨hn_sol, hnor.1, hnor.2⟩
      -- the new invariant after popping node
      have hinv' : KahnInv pool uc sol
          (rest ++ List.insertionSort (fun a b => cpv_le pool a b = true)
            (decrement_all (kahn_adj pool uc sol node) indeg).2)
          (decrement_all (kahn_adj pool uc sol node) indeg).1
          (order ++ [node]) := by
        refine ⟨?_, ?_, ?_, ?_, ?_, ?_, ?_, ?_⟩
        · rw [List.nodup_append]
          refine ⟨hinv.order_nodup, List.nodup_singleton _, ?_⟩
          intro a ha hb
          rw [List.mem_singleton] at hb
          subst hb
          exact hnode_not_order ha
        · rw [List.nodup_append]
          refine ⟨hrest_nodup, hnext_nodup, ?_⟩
          intro a ha hb
          exact (hnext_props a hb).2.2 (List.mem_cons_of_mem _ ha)
        · intro n hn hq
          rcases List.mem_append.mp hn with hno | hnn
          · rcases List.mem_append.mp hq with hr | hx
            · exact hinv.disj n hno (List.mem_cons_of_mem _ hr)
            · exact (hnext_props n hx).2.1 hno
          · rw [List.mem_singleton] at hnn
            subst hnn
            rcases List.mem_append.mp hq with hr | hx
            · exact hnode_not_rest hr
            · exact (hnext_props n hx).2.2 (List.mem_cons_self _ _)
        · intro n hn
          rcases List.mem_append.mp hn with h | h
          · exact hinv.order_sub n h
          · rw [List.mem_singleton] at h
            exact h ▸ hnode_sol
        · intro n hn
          rcases List.mem_append.mp hn with h | h
          · exact hinv.queue_sub n (List.mem_cons_of_mem _ h)
          · exact (hnext_props n h).1
        · intro n
          rw [hupd n, hinv.indeg_eq n, hdeps_count n,
            ← List.countP_eq_length_filter, ← List.countP_eq_length_filter]
          have hsplit := countP_and_split (hard_edges pool uc sol)
            (fun e => e.src == n && !(decide (e.dst ∈ order)))
            (fun e => e.dst == node)
          have h1 : List.countP (fun e =>
              (e.src == n && !(decide (e.dst ∈ order))) && (e.dst == node))
              (hard_edges pool uc sol) =
              List.countP (fun e => e.src == n && e.dst == node)
              (hard_edges pool uc sol) := by
            apply List.countP_congr
            intro e he
            simp only [Bool.and_eq_true, beq_iff_eq, Bool.not_eq_true',
              decide_eq_false_iff_not]
            constructor
            · rintro ⟨⟨h1, -⟩, h2⟩
              exact ⟨h1, h2⟩
            · rintro ⟨h1, h2⟩
              exact ⟨⟨h1, h2 ▸ hnode_not_order⟩, h2⟩
          have h2 : List.countP (fun e =>
              (e.src == n && !(decide (e.dst ∈ order))) && !(e.dst == node))
              (hard_edges pool uc sol) =
              List.countP (fun e => e.src == n && !(decide (e.dst ∈ order ++ [node])))
              (hard_edges pool uc sol) := by
            apply List.countP_congr
            intro e he
            simp only [Bool.and_eq_true, beq_iff_eq, Bool.not_eq_true',
              decide_eq_false_iff_not, List.mem_append, List.mem_singleton, bne_iff_ne]
            constructor
            · rintro ⟨⟨h1, h2⟩, h3⟩
              simp at h3
              exact ⟨h1, fun hor => hor.elim h2 h3⟩
            · rintro ⟨h1, h2⟩
              push_neg at h2
              refine ⟨⟨h1, h2.1⟩, by simpa using h2.2⟩
          omega
        · intro n hn
          constructor
          · intro hor
            rcases hor with h | h
            · rcases List.mem_append.mp h with ho | hnn
              · have := (hinv.placed_iff n hn).mp (Or.inl ho)
                rw [hupd n]
                omega
              · rw [List.mem_singleton] at hnn
                subst hnn
                rw [hupd n]
                omega
            · rcases List.mem_append.mp h with hr | hx
              · have := (hinv.placed_iff n hn).mp (Or.inr (List.mem_cons_of_mem _ hr))
                rw [hupd n]
                omega
              · obtain ⟨-, hz⟩ := (hnext_mem n).mp hx
                rw [hupd n]
                omega
          · intro hz
            rw [hupd n] at hz
            by_cases h0 : indeg n = 0
            · rcases (hinv.placed_iff n hn).mpr h0 with ho | hq
              · exact Or.inl (List.mem_append_left _ ho)
              · rcases List.mem_cons.mp hq with hh | hr
                · subst hh
                  exact Or.inl (List.mem_append_right _ (List.mem_singleton.mpr rfl))
                · exact Or.inr (List.mem_append_left _ hr)
            · have hle := hcnt n
              have hcpos : 0 < (kahn_adj pool uc sol node).count n := by omega
              have hdep : n ∈ kahn_adj pool uc sol node := List.count_pos_iff.mp hcpos
              have heq : indeg n = (kahn_adj pool uc sol node).count n := by omega
              exact Or.inr (List.mem_append_right _ ((hnext_mem n).mpr ⟨hdep, heq⟩))
        · intro e he hsrc
          rcases List.mem_append.mp hsrc with ho | hnn
          · rw [takeWhile_ne_append_of_mem order [node] e.src ho]
            exact hinv.topo e he ho
          · rw [List.mem_singleton] at hnn
            -- e.src = node: all its targets are already ordered
            have hzero := hindeg_node
            rw [hinv.indeg_eq node, ← List.countP_eq_length_filter] at hzero
            have hnotp := List.countP_eq_zero.mp hzero e he
            simp only [Bool.and_eq_true, beq_iff_eq, Bool.not_eq_true',
              decide_eq_false_iff_not, not_and] at hnotp
            have hdst : e.dst ∈ order := by
              by_contra hcon
              exact (hnotp hnn) hcon
            rw [hnn, takeWhile_ne_append_self order node hnode_not_order]
            exact hdst
      -- the fuel strictly dominates the unordered remainder
      have hfuel' : (sol.filter fun n => !((order ++ [node]).contains n)).length < fuel := by
        rw [← List.countP_eq_length_filter] at hfuel ⊢
        have hsplit := countP_and_split sol
          (fun n => !(order.contains n)) (fun n => n == node)
        have hc1 : List.countP (fun n => !(order.contains n) && (n == node)) sol =
            List.count node sol := by
          rw [List.count_eq_countP]
          apply List.countP_congr
          intro n hn
          constructor
          · intro h
            simp at h ⊢
            exact h.2
          · intro h
            simp at h ⊢
            subst h
            exact ⟨hnode_not_order, rfl⟩
        have hcount1 : List.count node sol = 1 :=
          List.count_eq_one_of_mem hnd hnode_sol
        have hc2 : List.countP (fun n => !(order.contains n) && !(n == node)) sol =
            List.countP (fun n => !((order ++ [node]).contains n)) sol := by
          apply List.countP_congr
          intro n hn
          constructor
          · intro h
            simp at h ⊢
            tauto
          · intro h
            simp at h ⊢
            tauto
        omega
      -- apply the induction hypothesis to the new state
      obtain ⟨⟨t, ht⟩, hnodup, hsub, htopo, hblocked⟩ :=
        ih (rest ++ List.insertionSort (fun a b => cpv_le pool a b = true)
            (decrement_all (kahn_adj pool uc sol node) indeg).2)
          (decrement_all (kahn_adj pool uc sol node) indeg).1
          (order ++ [node]) hinv' hfuel'
      simp only [kahn_loop]
      refine ⟨⟨node :: t, by rw [ht, List.append_assoc, List.singleton_append]⟩,
        hnodup, hsub, htopo, ?_⟩
      intro n hn hnot
      exact hblocked n hn hnot

/-! ## Cycle extraction and the install-order theorem -/

/-- The depends-on relation induced by the non-PDEPEND edges of the
dependency graph: a depends on b when some non-PDEPEND edge goes from a
to b. -/
def depends_on (pool : PortagePool) (uc : UseConfig) (sol : List Nat)
    (a b : Nat) : Prop :=
  ∃ e ∈ hard_edges pool uc sol, e.src = a ∧ e.dst = b

/-- In a finite set in which every member has a successor inside the
set, the relation has a cycle: some element reaches itself. -/
theorem exists_cycle_of_all_have_succ (U : List Nat) (R : Nat → Nat → Prop)
    (hne : U ≠ []) (hsucc : ∀ n ∈ U, ∃ m ∈ U, R n m) :
    ∃ n, Relation.TransGen R n n := by
  classical
  have hex : ∀ n, ∃ m, n ∈ U → m ∈ U ∧ R n m := by
    intro n
    by_cases hn : n ∈ U
    · obtain ⟨m, hm, hr⟩ := hsucc n hn
      exact ⟨m, fun _ => ⟨hm, hr⟩⟩
    · exact ⟨0, fun h => absurd h hn⟩
  choose g hg using hex
  obtain ⟨x0, hx0⟩ := List.exists_mem_of_ne_nil U hne
  have hiter : ∀ k, g^[k] x0 ∈ U := by
    intro k
    induction k with
    | zero => simpa using hx0
    | succ k ihk =>
      rw [Function.iterate_succ_apply']
      exact (hg _ ihk).1
  have hstep : ∀ k, R (g^[k] x0) (g^[k + 1] x0) := by
    intro k
    rw [Function.iterate_succ_apply']
    exact (hg _ (hiter k)).2
  have hchain : ∀ i j, i < j → Relation.TransGen R (g^[i] x0) (g^[j] x0) := by
    intro i j hij
    induction j with
    | zero => omega
    | succ j ihj =>
      by_cases hj : i = j
      · subst hj
        exact Relation.TransGen.single (hstep i)
      · have hlt : i < j := by omega
        exact (ihj hlt).tail (hstep j)
  have hcard : Fintype.card (Fin U.length) < Fintype.card (Fin (U.length + 1)) := by
    simp
  obtain ⟨a, b, hab, heq⟩ := Fintype.exists_ne_map_eq_of_card_lt
    (fun k : Fin (U.length + 1) =>
      (⟨List.indexOf (g^[k.1] x0) U, List.indexOf_lt_length.mpr (hiter k.1)⟩ :
        Fin U.length)) hcard
  have heq2 : g^[a.1] x0 = g^[b.1] x0 := by
    have := congrArg Fin.val heq
    simp only at this
    exact (List.indexOf_inj (hiter a.1) (hiter b.1)).mp this
  have hab2 : a.1 ≠ b.1 := fun h => hab (Fin.ext h)
  rcases Nat.lt_or_ge a.1 b.1 with hlt | hge
  · exact ⟨g^[a.1] x0, heq2 ▸ hchain a.1 b.1 hlt⟩
  · have hlt : b.1 < a.1 := by omega
    exact ⟨g^[b.1] x0, heq2 ▸ hchain b.1 a.1 hlt⟩

/-- C3. install_order either returns an order that is a permutation of
the solution in which, for every non-PDEPEND edge of the dependency
graph, the target appears strictly before the depending solvable, and
then the non-PDEPEND graph is acyclic; or it returns the nonempty list
of exactly those solution members that could not be ordered: each keeps
a non-PDEPEND edge into another unordered member, and the non-PDEPEND
graph has a cycle. -/
theorem c3_install_order_topological (pool : PortagePool) (uc : UseConfig)
    (sol : List Nat) (hnd : sol.Nodup) :
    (∀ order, install_order pool uc sol = Except.ok order →
      order.Perm sol ∧
      (∀ e ∈ dependency_graph pool uc sol, e.cls ≠ DepClass.pdepend →
        List.indexOf e.dst order < List.indexOf e.src order) ∧
      ¬∃ n, Relation.TransGen (depends_on pool uc sol) n n) ∧
    (∀ rem, install_order pool uc sol = Except.error rem →
      rem ≠ [] ∧ (∀ n ∈ rem, n ∈ sol) ∧
      (∀ n ∈ rem, ∃ e ∈ dependency_graph pool uc sol,
        e.cls ≠ DepClass.pdepend ∧ e.src = n ∧ e.dst ∈ rem) ∧
      ∃ n, Relation.TransGen (depends_on pool uc sol) n n) := by
  -- the initial state satisfies the invariant
  have hinv0 : KahnInv pool uc sol
      (List.insertionSort (fun a b => cpv_le pool a b = true)
        (sol.filter fun n => kahn_indeg pool uc sol n == 0))
      (kahn_indeg pool uc sol) [] := by
    refine ⟨List.nodup_nil, ?_, ?_, ?_, ?_, ?_, ?_, ?_⟩
    · exact (List.perm_insertionSort _ _).symm.nodup (hnd.filter _)
    · intro n hn hq
      simp at hn
    · intro n hn
      simp at hn
    · intro n hn
      rw [List.mem_insertionSort] at hn
      exact (List.mem_filter.mp hn).1
    · intro n
      unfold kahn_indeg
      congr 1
      apply List.filter_congr
      intro e he
      simp
    · intro n hn
      simp only [List.not_mem_nil, false_or]
      rw [List.mem_insertionSort, List.mem_filter]
      constructor
      · rintro ⟨-, h⟩
        simpa using h
      · intro h
        exact ⟨hn, by simpa using h⟩
    · intro e he hsrc
      simp at hsrc
  have hfuel0 : (sol.filter fun n => !(([] : List Nat).contains n)).length <
      sol.length + 1 := by
    have : (sol.filter fun n => !(([] : List Nat).contains n)) = sol := by
      apply List.filter_eq_self.mpr
      intro a ha
      simp
    rw [this]
    omega
  obtain ⟨⟨t, ht⟩, hnodup, hsub, htopo, hblocked⟩ :=
    kahn_loop_spec pool uc sol hnd (sol.length + 1)
      (List.insertionSort (fun a b => cpv_le pool a b = true)
        (sol.filter fun n => kahn_indeg pool uc sol n == 0))
      (kahn_indeg pool uc sol) [] hinv0 hfuel0
  constructor
  · -- the Ok branch
    intro order hok
    simp only [install_order] at hok
    split at hok
    · rename_i hlen
      injection hok with hord
      rw [hord] at hnodup hsub htopo
      rw [hord] at hlen
      have hperm : order.Perm sol := by
        have hsubperm := List.subperm_of_subset hnodup hsub
        exact hsubperm.perm_of_length_le (by omega)
      have htopo_ix : ∀ e ∈ dependency_graph pool uc sol, e.cls ≠ DepClass.pdepend →
          List.indexOf e.dst order < List.indexOf e.src order := by
        intro e he hcls
        have hhard : e ∈ hard_edges pool uc sol := by
          rw [hard_edges, List.mem_filter]
          exact ⟨he, by simpa using hcls⟩
        have hsrc_sol := (hard_edges_endpoints pool uc sol e hhard).1
        have hsrc_order : e.src ∈ order := hperm.mem_iff.mpr hsrc_sol
        have := htopo e hhard hsrc_order
        exact indexOf_lt_of_mem_takeWhile_ne order e.dst e.src this hsrc_order
      refine ⟨hperm, htopo_ix, ?_⟩
      rintro ⟨n, htg⟩
      have hstep_lt : ∀ a b, depends_on pool uc sol a b →
          List.indexOf b order < List.indexOf a order := by
        rintro a b ⟨e, he, rfl, rfl⟩
        exact htopo_ix e (List.mem_filter.mp he).1
          (by
            have := (List.mem_filter.mp he).2
            simpa using this)
      have hlt : ∀ m, Relation.TransGen (depends_on pool uc sol) n m →
          List.indexOf m order < List.indexOf n order := by
        intro m htg2
        induction htg2 with
        | single h => exact hstep_lt _ _ h
        | tail htg2 h ihtg =>
          have h1 := hstep_lt _ _ h
          omega
      have := hlt n htg
      omega
    · exact absurd hok (by simp)
  · -- the Err branch
    intro rem herr
    simp only [install_order] at herr
    split at herr
    · exact absurd herr (by simp)
    · rename_i hlen
      injection herr with hrem
      subst hrem
      have horder_lt : (kahn_loop pool (kahn_adj pool uc sol) (sol.length + 1)
          (List.insertionSort (fun a b => cpv_le pool a b = true)
            (sol.filter fun n => kahn_indeg pool uc sol n == 0))
          (kahn_indeg pool uc sol) []).length ≤ sol.length :=
        (List.subperm_of_subset hnodup hsub).length_le
      have hmem_rem : ∀ n, (n ∈ sol.filter fun m => !((kahn_loop pool
          (kahn_adj pool uc sol) (sol.length + 1)
          (List.insertionSort (fun a b => cpv_le pool a b = true)
            (sol.filter fun m2 => kahn_indeg pool uc sol m2 == 0))
          (kahn_indeg pool uc sol) []).contains m)) ↔
          (n ∈ sol ∧ n ∉ kahn_loop pool (kahn_adj pool uc sol) (sol.length + 1)
            (List.insertionSort (fun a b => cpv_le pool a b = true)
              (sol.filter fun m2 => kahn_indeg pool uc sol m2 == 0))
            (kahn_indeg pool uc sol) []) := by
        intro n
        rw [List.mem_filter]
        constructor
        · rintro ⟨h1, h2⟩
          refine ⟨h1, ?_⟩
          simpa using h2
        · rintro ⟨h1, h2⟩
          refine ⟨h1, by simpa using h2⟩
      refine ⟨?_, ?_, ?_, ?_⟩
      · -- the remainder is nonempty
        intro hempty
        rw [List.filter_eq_nil_iff] at hempty
        have hsolsub : ∀ n ∈ sol, n ∈ kahn_loop pool (kahn_adj pool uc sol)
            (sol.length + 1)
            (List.insertionSort (fun a b => cpv_le pool a b = true)
              (sol.filter fun m2 => kahn_indeg pool uc sol m2 == 0))
            (kahn_indeg pool uc sol) [] := by
          intro n hn
          have := hempty n hn
          simpa using this
        have := (List.subperm_of_subset hnd hsolsub).length_le
        omega
      · intro n hn
        exact ((hmem_rem n).mp hn).1
      · intro n hn
        obtain ⟨hn_sol, hn_not⟩ := (hmem_rem n).mp hn
        obtain ⟨e, he, hsrc, hdst_sol, hdst_not⟩ := hblocked n hn_sol hn_not
        refine ⟨e, (List.mem_filter.mp he).1, ?_, hsrc, ?_⟩
        · have := (List.mem_filter.mp he).2
          simpa using this
        · exact (hmem_rem e.dst).mpr ⟨hdst_sol, hdst_not⟩
      · -- a cycle exists among the remainder
        apply exists_cycle_of_all_have_succ
          (sol.filter fun m => !((kahn_loop pool (kahn_adj pool uc sol)
            (sol.length + 1)
            (List.insertionSort (fun a b => cpv_le pool a b = true)
              (sol.filter fun m2 => kahn_indeg pool uc sol m2 == 0))
            (kahn_indeg pool uc sol) []).contains m))
        · intro hempty
          rw [List.filter_eq_nil_iff] at hempty
          have hsolsub : ∀ n ∈ sol, n ∈ kahn_loop pool (kahn_adj pool uc sol)
              (sol.length + 1)
              (List.insertionSort (fun a b => cpv_le pool a b = true)
                (sol.filter fun m2 => kahn_indeg pool uc sol m2 == 0))
              (kahn_indeg pool uc sol) [] := by
            intro n hn
            have := hempty n hn
            simpa using this
          have := (List.subperm_of_subset hnd hsolsub).length_le
          omega
        · intro n hn
          obtain ⟨hn_sol, hn_not⟩ := (hmem_rem n).mp hn
          obtain ⟨e, he, hsrc, hdst_sol, hdst_not⟩ := hblocked n hn_sol hn_not
          exact ⟨e.dst, (hmem_rem e.dst).mpr ⟨hdst_sol, hdst_not⟩,
            ⟨e, he, hsrc, rfl⟩⟩

deriving instance DecidableEq for Except

/-- Solvable metadata of app/foo-1.0 with a build-time dependency on
dev-lib/bar, used by the install-order witness. -/
def c3_foo_meta : PackageMetadata :=
  { cpv := ⟨⟨"app", "foo"⟩, version_one_zero⟩, slot := some "0", subslot := none,
    iuse := [], use_flags := [], repo := none,
    dependencies :=
      { depend := [DepEntry.atom
          { cpn := ⟨"dev-lib", "bar"⟩, version := none, slot_dep := none,
            repo := none, use_deps := none, blocker := none }],
        rdepend := [], bdepend := [], pdepend := [], idepend := [] } }

/-- Two-package pool of the install-order witness: solvable 0 is
app/foo-1.0 depending on solvable 1, dev-lib/bar-1.0. -/
def c3_pool : PortagePool :=
  { PortagePool.empty with
      names := [⟨⟨"app", "foo"⟩, some "0"⟩, ⟨⟨"dev-lib", "bar"⟩, some "0"⟩],
      solvables := [c3_foo_meta, demo_bar_meta],
      solvable_names := [0, 1] }

/-- Witness for C3: the concrete two-package solve orders the dependency
first, and the theorem applied at this input yields the permutation
property. -/
theorem c3_witness :
    install_order c3_pool ⟨[], [], []⟩ [0, 1] = Except.ok [1, 0] ∧
    (∀ order, install_order c3_pool ⟨[], [], []⟩ [0, 1] = Except.ok order →
      order.Perm [0, 1]) :=
  ⟨by decide, fun order h =>
    ((c3_install_order_topological c3_pool ⟨[], [], []⟩ [0, 1] (by decide)).1
      order h).1⟩

end PortageResolvo
